import Mathlib

/- A Lean model of the icicle-emu MMU (src/icicle-mem/src/mmu.rs).  Pure
   functions of the source become Lean functions; methods that mutate the
   Mmu become state-passing functions returning a result together with the
   new state.  Machine integers are modelled as Nat with explicit overflow
   checks where the source uses checked arithmetic.  Collaborators whose
   sources are not part of the snapshot (perm.rs, physical.rs, tlb.rs,
   range_map.rs) are modelled from the specification; each such definition
   is marked with a doc comment starting with the words Modelled from the
   spec. -/

namespace Icicle

def U64_SIZE : Nat := 2 ^ 64

/-- Rust u64 checked_add: none when the mathematical sum does not fit in 64 bits. -/
def checkedAdd (a b : Nat) : Option Nat :=
  if a + b < U64_SIZE then some (a + b) else none

/-- Rust as-cast of an i64 value to u64 (two's-complement wrap). -/
def wrapU64 (i : Int) : Nat := (i.emod (U64_SIZE : Int)).toNat

/-- Modelled from the spec: the error kinds of perm.rs (section 7 of the spec). -/
inductive MemError where
  | Unmapped
  | Unaligned
  | ReadViolation
  | WriteViolation
  | ExecViolation
  | Uninitialized
  | OutOfMemory
  | AddressOverflow
  | SelfModifyingCode
deriving DecidableEq

/-- Result of an operation: either a memory error, or a fatal condition.
    The fatal variant stands for places where the source raises a Rust
    panic (an unimplemented! arm, an out-of-range vector index, a failed
    unwrap, or an out-of-range slice). -/
inductive OpError where
  | mem (e : MemError)
  | fatal
deriving DecidableEq

deriving instance DecidableEq for Except

def liftMem : Except MemError α → Except OpError α
  | Except.error e => Except.error (OpError.mem e)
  | Except.ok a => Except.ok a

/-- Modelled from the spec: permission bits of perm.rs.  The concrete bit
    positions are representative; the code only tests bit membership. -/
def Perm.NONE : Nat := 0
def Perm.READ : Nat := 1
def Perm.WRITE : Nat := 2
def Perm.EXEC : Nat := 4
def Perm.INIT : Nat := 8
def Perm.MAP : Nat := 16
def Perm.IN_CODE_CACHE : Nat := 32

def hasBit (x b : Nat) : Bool := x &&& b != 0

/-- Modelled from the spec: perm::check(actual, requested) passes iff
    (actual AND requested) == requested and actual has MAP; specific
    missing bits produce distinct error kinds.  MAP is tested first: the
    source comments in read_tlb_miss state that an access which runs past
    its mapping fails with Unmapped. -/
def Perm.check (actual requested : Nat) : Except MemError Unit :=
  if ¬ hasBit actual Perm.MAP then Except.error MemError.Unmapped
  else if hasBit requested Perm.READ ∧ ¬ hasBit actual Perm.READ then
    Except.error MemError.ReadViolation
  else if hasBit requested Perm.WRITE ∧ ¬ hasBit actual Perm.WRITE then
    Except.error MemError.WriteViolation
  else if hasBit requested Perm.EXEC ∧ ¬ hasBit actual Perm.EXEC then
    Except.error MemError.ExecViolation
  else if hasBit requested Perm.INIT ∧ ¬ hasBit actual Perm.INIT then
    Except.error MemError.Uninitialized
  else Except.ok ()

/-- Modelled from the spec: physical::PAGE_SIZE, the fixed page size
    (typically 4096 bytes; referenced as a global constant by mmu.rs). -/
def PAGE_SIZE : Nat := 4096

/-- Modelled from the spec: crate::UNINIT_VALUE, the sentinel byte used for
    page ranges backing I/O or unmapped regions. -/
def UNINIT_VALUE : Nat := 0xaa

/-- Byte data and per-byte permissions of one physical page, as functions
    from page offset to byte value. -/
structure PageData where
  data : Nat → Nat
  perm : Nat → Nat

/-- PageData::offset of physical.rs: offset of an address within its page. -/
def PageData.offset (addr : Nat) : Nat := addr % PAGE_SIZE

/-- PhysicalMemory::page_aligned: the page base of an address. -/
def pageBase (addr : Nat) : Nat := addr - addr % PAGE_SIZE

def PageData.fillData (p : PageData) (off len v : Nat) : PageData :=
  { p with data := fun i => if off ≤ i ∧ i < off + len then v else p.data i }

def PageData.fillPerm (p : PageData) (off len v : Nat) : PageData :=
  { p with perm := fun i => if off ≤ i ∧ i < off + len then v else p.perm i }

def PageData.addPerm (p : PageData) (off len v : Nat) : PageData :=
  { p with perm := fun i => if off ≤ i ∧ i < off + len then p.perm i ||| v else p.perm i }

/-- First per-byte permission failure in p.perm at offsets off..off+n. -/
def PageData.firstPermErr (p : PageData) (off n requested : Nat) : Option MemError :=
  (List.range n).findSome? fun i =>
    match Perm.check (p.perm (off + i)) requested with
    | Except.error e => some e
    | Except.ok _ => none

/-- Modelled from the spec: PageData::read.  Per-byte permission check of
    the requested bits; reads additionally require the INIT bit (reads of
    uninitialised bytes fail per section 8 of the spec). -/
def PageData.readBytes (p : PageData) (addr : Nat) (n requested : Nat) :
    Except MemError (List Nat) :=
  let off := PageData.offset addr
  match p.firstPermErr off n (requested ||| Perm.INIT) with
  | some e => Except.error e
  | none => Except.ok ((List.range n).map fun i => p.data (off + i))

/-- Modelled from the spec: PageData::write.  Per-byte permission check of
    the requested bits; on success writes the data bytes and ORs INIT into
    their permissions; a failure leaves the page untouched. -/
def PageData.writeBytes (p : PageData) (addr : Nat) (v : List Nat) (requested : Nat) :
    Except MemError PageData :=
  let off := PageData.offset addr
  match p.firstPermErr off v.length requested with
  | some e => Except.error e
  | none => Except.ok
      { data := fun i => if off ≤ i ∧ i < off + v.length then v.getD (i - off) 0 else p.data i,
        perm := fun i => if off ≤ i ∧ i < off + v.length then p.perm i ||| Perm.INIT
                         else p.perm i }

/-- One physical page together with its flags (physical.rs declarations). -/
structure Page where
  data : PageData
  executed : Bool
  modified : Bool
  copyOnWrite : Bool

def emptyPage : Page :=
  { data := { data := fun _ => 0, perm := fun _ => 0 },
    executed := false, modified := false, copyOnWrite := false }

/-- Modelled from the spec: the physical page pool, a fixed-capacity
    allocator of pages with a table of shared zero pages keyed by
    permission byte.  Pages are referenced by index; the source's
    Index::is_zero_page test is modelled through the zero-page table. -/
structure PhysicalMemory where
  pages : List Page
  capacity : Nat
  zeroPages : List (Nat × Nat)

def PhysicalMemory.get (pm : PhysicalMemory) (i : Nat) : Page :=
  pm.pages.getD i emptyPage

def PhysicalMemory.setPage (pm : PhysicalMemory) (i : Nat) (pg : Page) : PhysicalMemory :=
  { pm with pages := pm.pages.set i pg }

/-- Modelled from the spec: allocation fails when the pool is at capacity. -/
def PhysicalMemory.alloc (pm : PhysicalMemory) : Option (Nat × PhysicalMemory) :=
  if pm.pages.length < pm.capacity then
    some (pm.pages.length, { pm with pages := pm.pages ++ [emptyPage] })
  else none

/-- Modelled from the spec: clone_page copies the page into a fresh slot;
    the clone is not copy-on-write. -/
def PhysicalMemory.clonePage (pm : PhysicalMemory) (i : Nat) : Option (Nat × PhysicalMemory) :=
  match pm.alloc with
  | none => none
  | some (j, pm1) => some (j, pm1.setPage j { pm.get i with copyOnWrite := false })

/-- Modelled from the spec: the pool's shared zero page for a permission
    byte, when one is designated. -/
def PhysicalMemory.getZeroPage (pm : PhysicalMemory) (p : Nat) : Option Nat :=
  (pm.zeroPages.find? fun z => z.1 == p).map fun z => z.2

/-- Modelled from the spec: Index::is_zero_page. -/
def PhysicalMemory.isZeroPageIdx (pm : PhysicalMemory) (i : Nat) : Bool :=
  pm.zeroPages.any fun z => z.2 == i

/-- Modelled from the spec: the software TLB, a cache keyed by page base
    with separate read-side and write-side entries.  The claims under
    verification only concern which entries exist, so the cached data
    pointers are not represented. -/
structure TranslationCache where
  readEntries : List Nat
  writeEntries : List Nat
deriving DecidableEq

def TranslationCache.empty : TranslationCache := ⟨[], []⟩

def TranslationCache.clear (_t : TranslationCache) : TranslationCache := ⟨[], []⟩

def TranslationCache.clearWrite (t : TranslationCache) : TranslationCache :=
  { t with writeEntries := [] }

def TranslationCache.removeRead (t : TranslationCache) (addr : Nat) : TranslationCache :=
  { t with readEntries := t.readEntries.filter fun a => a != pageBase addr }

def TranslationCache.removeWrite (t : TranslationCache) (addr : Nat) : TranslationCache :=
  { t with writeEntries := t.writeEntries.filter fun a => a != pageBase addr }

def TranslationCache.remove (t : TranslationCache) (addr : Nat) : TranslationCache :=
  (t.removeRead addr).removeWrite addr

/-- Remove every entry whose page overlaps the byte range of length len at start. -/
def TranslationCache.removeRange (t : TranslationCache) (start len : Nat) : TranslationCache :=
  let keep := fun a => decide (a + (PAGE_SIZE - 1) < start ∨ start + len ≤ a)
  { readEntries := t.readEntries.filter keep, writeEntries := t.writeEntries.filter keep }

def TranslationCache.insertRead (t : TranslationCache) (addr : Nat) : TranslationCache :=
  let b := pageBase addr
  if b ∈ t.readEntries then t else { t with readEntries := t.readEntries ++ [b] }

def TranslationCache.insertWrite (t : TranslationCache) (addr : Nat) : TranslationCache :=
  let b := pageBase addr
  if b ∈ t.writeEntries then t else { t with writeEntries := t.writeEntries ++ [b] }

/-- Modelled from the spec: the range map, an ordered interval container
    mapping disjoint inclusive u64 ranges to values, kept sorted by start. -/
abbrev RangeMap (α : Type) := List (Nat × Nat × α)

def RangeMap.getWithRange (m : RangeMap α) (a : Nat) : Option (Nat × Nat × α) :=
  m.find? fun r => decide (r.1 ≤ a ∧ a ≤ r.2.1)

def RangeMap.get? (m : RangeMap α) (a : Nat) : Option α :=
  (m.getWithRange a).map fun r => r.2.2

def rangeOverlapsB (s e : Nat) (r : Nat × Nat × α) : Bool :=
  decide (r.1 ≤ e ∧ s ≤ r.2.1)

/-- Modelled from the spec: insert fails (returns none) when the new range
    overlaps an existing entry; otherwise the entry is inserted in order. -/
def RangeMap.insert (m : RangeMap α) (s e : Nat) (v : α) : Option (RangeMap α) :=
  if m.any (rangeOverlapsB s e) then none
  else some ((m.takeWhile fun r => r.1 < s) ++ [(s, e, v)] ++ (m.dropWhile fun r => r.1 < s))

/-- Segments of the query range [qs, qe], walking the (sorted, disjoint)
    entries from a cursor: clipped pieces of entries carry some value, the
    maximal gaps carry none.  The emitted segments tile [cursor, qe]. -/
def segsGo (qe : Nat) : List (Nat × Nat × α) → Nat → List (Nat × Nat × Option α)
  | [], cursor => if cursor ≤ qe then [(cursor, qe, none)] else []
  | (s, e, v) :: rest, cursor =>
    if s ≤ qe ∧ cursor ≤ e ∧ cursor ≤ qe then
      let os := max s cursor
      let oe := min e qe
      (if cursor < os then [(cursor, os - 1, (none : Option α))] else []) ++
        ((os, oe, some v) ::
          (if oe + 1 ≤ qe then segsGo qe rest (oe + 1) else []))
    else if e < cursor then segsGo qe rest cursor
    else if cursor ≤ qe then [(cursor, qe, none)]
    else []

def RangeMap.overlappingSegments (m : RangeMap α) (qs qe : Nat) :
    List (Nat × Nat × Option α) :=
  segsGo qe m qs

/-- Parts of entries lying strictly below the query range (whole entries
    below it, and the left remainder of an entry straddling its start). -/
def RangeMap.lowParts (m : RangeMap α) (qs : Nat) : RangeMap α :=
  m.filterMap fun r => if r.1 < qs then some (r.1, min r.2.1 (qs - 1), r.2.2) else none

/-- Parts of entries lying strictly above the query range. -/
def RangeMap.highParts (m : RangeMap α) (qe : Nat) : RangeMap α :=
  m.filterMap fun r => if qe < r.2.1 then some (max r.1 (qe + 1), r.2.1, r.2.2) else none

/-- Rebuild the map from transformed query segments: parts of entries
    outside the query are kept, segments with a value become entries. -/
def RangeMap.applySegments (m : RangeMap α) (qs qe : Nat)
    (segs : List (Nat × Nat × Option α)) : RangeMap α :=
  m.lowParts qs ++ (segs.filterMap fun r => r.2.2.map fun v => (r.1, r.2.1, v)) ++
    m.highParts qe

/-- Run the callback over the segments in order, threading state st; on the
    first error the remaining segments keep their original values (matching
    the source, where mutations already applied by the closure persist). -/
def overMutGo (f : σ → Nat → Nat → Option α → Except ε (Option α) × σ) :
    List (Nat × Nat × Option α) → σ → Option ε × List (Nat × Nat × Option α) × σ
  | [], st => (none, [], st)
  | (s, e, v) :: rest, st =>
    match f st s (e - s + 1) v with
    | (Except.error err, st1) => (some err, (s, e, v) :: rest, st1)
    | (Except.ok v1, st1) =>
      let r := overMutGo f rest st1
      (r.1, (s, e, v1) :: r.2.1, r.2.2)

/-- Modelled from the spec: RangeMap::overlapping_mut.  The callback sees
    each overlap segment (start, length, entry) of [qs, qe], may replace or
    remove the entry, and may fail; state for the captured borrows of the
    source closures is threaded through st. -/
def RangeMap.overlappingMut (m : RangeMap α) (qs qe : Nat) (st : σ)
    (f : σ → Nat → Nat → Option α → Except ε (Option α) × σ) :
    Option ε × RangeMap α × σ :=
  let r := overMutGo f (m.overlappingSegments qs qe) st
  (r.1, m.applySegments qs qe r.2.1, r.2.2)

/-- Modelled from the spec: RangeMap::remove_last removes the last entry
    overlapping [qs, qe] and returns its value and full range. -/
def RangeMap.removeLast : RangeMap α → Nat → Nat → Option ((α × Nat × Nat) × RangeMap α)
  | [], _, _ => none
  | r :: rest, qs, qe =>
    match RangeMap.removeLast rest qs qe with
    | some (hit, rest1) => some (hit, r :: rest1)
    | none => if rangeOverlapsB qs qe r then some ((r.2.2, r.1, r.2.1), rest) else none

/-- HookEntry of mmu.rs: a half-open guest address range [start, stop) and
    an optional handler (none marks a removed slot).  The source field names
    are start and end. -/
structure HookEntry (H : Type) where
  start : Nat
  stop : Nat
  handler : Option H
deriving DecidableEq

/-- HookEntry::range of mmu.rs: the entry's range padded to page boundaries,
    returned as an inclusive range. -/
def HookEntry.pageRange (hk : HookEntry H) : Nat × Nat :=
  (pageBase hk.start, pageBase (hk.stop + PAGE_SIZE))

/-- HookStore of mmu.rs: a vector with stable ids; removed entries are
    replaced with a dummy value. -/
structure HookStore (H : Type) where
  hooks : List (HookEntry H)
deriving DecidableEq

/-- HookStore::add of mmu.rs.  The position of the first dead slot is taken
    as the id when one exists; otherwise a fresh entry is pushed.  Note that
    in the dead-slot case the source's unwrap_or_else closure does not run,
    so the store is returned unmodified and the handler is dropped. -/
def HookStore.add (st : HookStore H) (s e : Nat) (h : H) : HookStore H × Nat :=
  match st.hooks.findIdx? (fun x => x.handler.isNone) with
  | some i => (st, i)
  | none => ({ hooks := st.hooks ++ [⟨s, e, some h⟩] }, st.hooks.length)

/-- HookStore::remove of mmu.rs: replace the slot with a dummy entry. -/
def HookStore.remove (st : HookStore H) (id : Nat) : Bool × HookStore H :=
  if id < st.hooks.length then (true, { hooks := st.hooks.set id ⟨0, 0, none⟩ })
  else (false, st)

/-- HookStore::contains_address of mmu.rs: does a live hook's page-padded
    range contain addr? -/
def HookStore.containsAddress (st : HookStore H) (addr : Nat) : Bool :=
  st.hooks.any fun x =>
    x.handler.isSome && decide (x.pageRange.1 ≤ addr ∧ addr ≤ x.pageRange.2)

/-- Read hook handlers, as pure functions of (addr, size). -/
abbrev ReadHookFn := Nat → Nat → Option Nat

/-- Ghost record of every hook handler invocation, carrying the slot index
    of the hook and the arguments the source passes to it.  This makes hook
    dispatch observable while handlers are modelled as pure functions. -/
inductive HookEvent where
  | readBefore (idx : Nat) (addr : Nat) (size : Nat)
  | readAfter (idx : Nat) (addr : Nat) (value : List Nat)
  | writeAt (idx : Nat) (addr : Nat) (value : List Nat)
deriving DecidableEq

def HookEvent.isReadAfter : HookEvent → Bool
  | HookEvent.readAfter _ _ _ => true
  | _ => false

/-- An I/O handler, as pure read and write functions. -/
structure IoDevice where
  readFn : Nat → Nat → Except MemError (List Nat)
  writeFn : Nat → List Nat → Except MemError Unit

structure PhysicalMapping where
  index : Nat
  addr : Nat
deriving DecidableEq

structure UnallocatedMapping where
  value : Nat
  perm : Nat
deriving DecidableEq

inductive MemoryMapping where
  | Physical (m : PhysicalMapping)
  | Unallocated (m : UnallocatedMapping)
  | Io (id : Nat)
deriving DecidableEq

def DETECT_SELF_MODIFYING_CODE : Bool := true
def ENABLE_ZERO_PAGE_OPTIMIZATION : Bool := true
def ENABLE_MEMORY_HOOKS : Bool := true

/-- The Mmu aggregate of mmu.rs, restricted to the fields the verified
    claims concern, plus the ghost hookTrace log of handler invocations. -/
structure Mmu where
  trackUninitialized : Bool
  detectSelfModifyingCode : Bool
  tlbMissCount : Nat
  mappingChanged : Bool
  modified : List Nat
  tlb : TranslationCache
  mapping : RangeMap MemoryMapping
  readHooks : HookStore ReadHookFn
  readAfterHooks : HookStore Unit
  writeHooks : HookStore Unit
  physical : PhysicalMemory
  io : List IoDevice
  lastIoHandler : Option (Nat × Nat × Nat)
  hookTrace : List HookEvent

/-- HashSet::insert on the modified set (no duplicates). -/
def insertSet (l : List Nat) (a : Nat) : List Nat :=
  if a ∈ l then l else l ++ [a]

/-- Mmu::add_read_hook: clears the TLB, then adds to the store. -/
def Mmu.addReadHook (m : Mmu) (s e : Nat) (h : ReadHookFn) : Option Nat × Mmu :=
  let r := m.readHooks.add s e h
  (some r.2, { m with tlb := m.tlb.clear, readHooks := r.1 })

/-- Mmu::remove_read_hook: removes from the store (the TLB is not touched). -/
def Mmu.removeReadHook (m : Mmu) (id : Nat) : Bool × Mmu :=
  let r := m.readHooks.remove id
  (r.1, { m with readHooks := r.2 })

/-- Mmu::add_read_after_hook. -/
def Mmu.addReadAfterHook (m : Mmu) (s e : Nat) (h : Unit) : Option Nat × Mmu :=
  let r := m.readAfterHooks.add s e h
  (some r.2, { m with tlb := m.tlb.clear, readAfterHooks := r.1 })

/-- Mmu::remove_read_after_hook. -/
def Mmu.removeReadAfterHook (m : Mmu) (id : Nat) : Bool × Mmu :=
  let r := m.readAfterHooks.remove id
  (r.1, { m with readAfterHooks := r.2 })

/-- Mmu::add_write_hook. -/
def Mmu.addWriteHook (m : Mmu) (s e : Nat) (h : Unit) : Option Nat × Mmu :=
  let r := m.writeHooks.add s e h
  (some r.2, { m with tlb := m.tlb.clear, writeHooks := r.1 })

/-- Mmu::remove_write_hook. -/
def Mmu.removeWriteHook (m : Mmu) (id : Nat) : Bool × Mmu :=
  let r := m.writeHooks.remove id
  (r.1, { m with writeHooks := r.2 })

/-- Mmu::map_memory_len.  Fails on zero length, end-address overflow, or an
    overlapping insertion; on success it removes the TLB entries in the
    range, sets mapping_changed and drops the I/O cache. -/
def Mmu.mapMemoryLen (m : Mmu) (start len : Nat) (mp : MemoryMapping) : Bool × Mmu :=
  if len = 0 then (false, m)
  else
    match checkedAdd start (len - 1) with
    | none => (false, m)
    | some e =>
      match m.mapping.insert start e mp with
      | none => (false, m)
      | some mapping1 =>
        (true, { m with mapping := mapping1, mappingChanged := true,
                        tlb := m.tlb.removeRange start len, lastIoHandler := none })

/-- The per-segment closure of Mmu::unmap_memory_len.  State: the TLB, the
    pool, and the partially_unmapped flag.  Physical segments drop their
    entry and remove the TLB range; a sub-page physical segment also clears
    the permission bytes of the unmapped region on the shared page (the
    source asserts such a page is not an executed code page; the assertion
    is not represented).  Other present entries are simply dropped; a gap
    raises the flag. -/
def unmapSegF (st : TranslationCache × PhysicalMemory × Bool) (s len : Nat)
    (entry : Option MemoryMapping) :
    Except Unit (Option MemoryMapping) × (TranslationCache × PhysicalMemory × Bool) :=
  match entry with
  | some (MemoryMapping.Physical inner) =>
    let tlb1 := st.1.removeRange s len
    if len = PAGE_SIZE then (Except.ok none, (tlb1, st.2.1, st.2.2))
    else
      let pg := st.2.1.get inner.index
      let pg1 := { pg with data := pg.data.fillPerm (PageData.offset s) len Perm.NONE }
      (Except.ok none, (tlb1, st.2.1.setPage inner.index pg1, st.2.2))
  | some _ => (Except.ok none, st)
  | none => (Except.ok none, (st.1, st.2.1, true))

/-- Mmu::unmap_memory_len. -/
def Mmu.unmapMemoryLen (m : Mmu) (start len : Nat) : Bool × Mmu :=
  if len = 0 then (false, m)
  else
    match checkedAdd start (len - 1) with
    | none => (false, m)
    | some e =>
      match m.mapping.overlappingMut start e (m.tlb, m.physical, false) unmapSegF with
      | (_, mapping1, (tlb1, phys1, incomplete)) =>
        (!incomplete, { m with mappingChanged := true, mapping := mapping1,
                               tlb := tlb1, physical := phys1 })

/-- The per-segment closure of Mmu::update_perm, with the adjusted
    permission byte perm1 already computed.  A gap fails with Unmapped; a
    whole-page zero-page entry is redirected to the zero page of the new
    permission when the pool has one; other physical segments have their
    permission bytes overwritten; unallocated entries store the new
    permission; an I/O entry hits an unimplemented! panic. -/
def updatePermSegF (perm1 : Nat) (st : TranslationCache × PhysicalMemory)
    (s len : Nat) (entry : Option MemoryMapping) :
    Except OpError (Option MemoryMapping) × (TranslationCache × PhysicalMemory) :=
  match entry with
  | none => (Except.error (OpError.mem MemError.Unmapped), st)
  | some (MemoryMapping.Physical pe) =>
    let tlb1 := st.1.removeRange s len
    let off := PageData.offset s
    match (if off = 0 ∧ len = PAGE_SIZE ∧ st.2.isZeroPageIdx pe.index = true
           then st.2.getZeroPage perm1 else none) with
    | some zp => (Except.ok (some (MemoryMapping.Physical { pe with index := zp })), (tlb1, st.2))
    | none =>
      let pg := st.2.get pe.index
      let pg1 := { pg with data := pg.data.fillPerm off len perm1 }
      (Except.ok (some (MemoryMapping.Physical pe)), (tlb1, st.2.setPage pe.index pg1))
  | some (MemoryMapping.Unallocated u) =>
    (Except.ok (some (MemoryMapping.Unallocated { u with perm := perm1 })), st)
  | some (MemoryMapping.Io _) => (Except.error OpError.fatal, st)

/-- Mmu::update_perm.  The source computes addr.checked_add(count - 1); for
    count = 0 the u64 subtraction underflows, modelled as AddressOverflow.
    mapping_changed is set before the walk, so it is true even when a
    segment fails. -/
def Mmu.updatePerm (m : Mmu) (addr count p : Nat) : Except OpError Unit × Mmu :=
  match count with
  | 0 => (Except.error (OpError.mem MemError.AddressOverflow), m)
  | Nat.succ k =>
    match checkedAdd addr k with
    | none => (Except.error (OpError.mem MemError.AddressOverflow), m)
    | some e =>
      let perm1 := p ||| Perm.MAP |||
        (if m.trackUninitialized then Perm.NONE else Perm.INIT)
      match m.mapping.overlappingMut addr e (m.tlb, m.physical) (updatePermSegF perm1) with
      | (err?, mapping1, (tlb1, phys1)) =>
        ((match err? with | some er => Except.error er | none => Except.ok ()),
         { m with mappingChanged := true, mapping := mapping1, tlb := tlb1,
                  physical := phys1 })

/-- check_self_modifying_memset of mmu.rs: scan the target range for a byte
    that is IN_CODE_CACHE and differs from the fill value. -/
def checkSelfModifyingMemset (pd : PageData) (s len : Nat) (v : Nat) :
    Except MemError Unit :=
  let off := PageData.offset s
  if (List.range len).any (fun i =>
      hasBit (pd.perm (off + i)) Perm.IN_CODE_CACHE && pd.data (off + i) != v)
  then Except.error MemError.SelfModifyingCode
  else Except.ok ()

/-- The per-segment closure of Mmu::fill_mem.  A gap fails with Unmapped;
    a physical segment removes its TLB range, runs the self-modifying-code
    scan for executed pages, then fills data and ORs INIT into permissions,
    except that overwriting a whole zero page with zeros is skipped; an
    unallocated entry stores the value and INIT; I/O hits unimplemented!. -/
def fillMemSegF (v : Nat) (detect : Bool) (st : TranslationCache × PhysicalMemory)
    (s len : Nat) (entry : Option MemoryMapping) :
    Except OpError (Option MemoryMapping) × (TranslationCache × PhysicalMemory) :=
  match entry with
  | none => (Except.error (OpError.mem MemError.Unmapped), st)
  | some (MemoryMapping.Physical pe) =>
    let tlb1 := st.1.removeRange s len
    let pg := st.2.get pe.index
    match (if pg.executed = true ∧ detect = true
           then checkSelfModifyingMemset pg.data s len v else Except.ok ()) with
    | Except.error er => (Except.error (OpError.mem er), (tlb1, st.2))
    | Except.ok _ =>
      let off := PageData.offset s
      if v = 0 ∧ off = 0 ∧ len = PAGE_SIZE ∧ st.2.isZeroPageIdx pe.index = true then
        (Except.ok (some (MemoryMapping.Physical pe)), (tlb1, st.2))
      else
        let d1 := (pg.data.fillData off len v).addPerm off len Perm.INIT
        (Except.ok (some (MemoryMapping.Physical pe)),
         (tlb1, st.2.setPage pe.index { pg with data := d1 }))
  | some (MemoryMapping.Unallocated u) =>
    (Except.ok (some (MemoryMapping.Unallocated
       { u with value := v, perm := u.perm ||| Perm.INIT })), st)
  | some (MemoryMapping.Io _) => (Except.error OpError.fatal, st)

/-- Mmu::fill_mem.  Note that it sets neither mapping_changed nor the I/O
    cache. -/
def Mmu.fillMem (m : Mmu) (addr count v : Nat) : Except OpError Unit × Mmu :=
  match count with
  | 0 => (Except.ok (), m)
  | Nat.succ k =>
    match checkedAdd addr k with
    | none => (Except.error (OpError.mem MemError.AddressOverflow), m)
    | some e =>
      match m.mapping.overlappingMut addr e (m.tlb, m.physical)
              (fillMemSegF v m.detectSelfModifyingCode) with
      | (err?, mapping1, (tlb1, phys1)) =>
        ((match err? with | some er => Except.error er | none => Except.ok ()),
         { m with mapping := mapping1, tlb := tlb1, physical := phys1 })

/-- The loop of Mmu::move_region_len.  Each pass removes the last mapping
    overlapping [start, e], requires it to reach e, shifts it by dstOffset
    and re-inserts it (the source unwraps the insertion: failure is a
    panic), then continues below its start.  The fuel argument bounds the
    recursion; move_region_len passes one more than the map size, which the
    loop never exhausts when each pass removes one of the finitely many
    overlapping entries. -/
def Mmu.moveRegionGo (fuel : Nat) (m : Mmu) (dstOffset : Int) (start e : Nat) :
    Except OpError Unit × Mmu :=
  match fuel with
  | 0 => (Except.error (OpError.mem MemError.Unmapped), m)
  | Nat.succ f =>
    if start < e then
      match m.mapping.removeLast start e with
      | none => (Except.error (OpError.mem MemError.Unmapped), m)
      | some ((v, os, oe), mapping1) =>
        if oe < e then
          (Except.error (OpError.mem MemError.Unmapped), { m with mapping := mapping1 })
        else
          let tlb1 := m.tlb.removeRange os (oe - os + 1)
          let shs := wrapU64 ((os : Int) + dstOffset)
          let she := wrapU64 ((oe : Int) + dstOffset)
          match mapping1.insert shs she v with
          | none =>
            (Except.error OpError.fatal,
             { m with mapping := mapping1, tlb := tlb1, lastIoHandler := none })
          | some mapping2 =>
            Mmu.moveRegionGo f
              { m with mapping := mapping2, tlb := tlb1, lastIoHandler := none }
              dstOffset start os
    else (Except.ok (), m)

/-- Mmu::move_region_len.  The source computes start.checked_add(len - 1);
    len = 0 underflows, modelled as AddressOverflow.  The i64 offset
    dst - start is modelled as an exact integer difference. -/
def Mmu.moveRegionLen (m : Mmu) (start len dst : Nat) : Except OpError Unit × Mmu :=
  let dstOffset : Int := (dst : Int) - (start : Int)
  match len with
  | 0 => (Except.error (OpError.mem MemError.AddressOverflow), m)
  | Nat.succ k =>
    match checkedAdd start k with
    | none => (Except.error (OpError.mem MemError.AddressOverflow), m)
    | some e => m.moveRegionGo (m.mapping.length + 1) dstOffset start e

/-- Mmu::clear_page_modification_log: clears the write half of the TLB, the
    I/O cache, and the modified set. -/
def Mmu.clearPageModificationLog (m : Mmu) : Mmu :=
  { m with tlb := m.tlb.clearWrite, lastIoHandler := none, modified := [] }

/-- Mmu::get_zero_page's scan over the overlap segments: every segment must
    be an Unallocated entry with fill value zero, and all permissions must
    agree; acc carries the permission seen so far. -/
def zeroScan : List (Nat × Nat × Option MemoryMapping) → Option Nat → Option Nat
  | [], acc => acc
  | seg :: rest, acc =>
    match seg.2.2 with
    | some (MemoryMapping.Unallocated u) =>
      if u.value = 0 then
        match acc with
        | some pm => if u.perm = pm then zeroScan rest acc else none
        | none => zeroScan rest (some u.perm)
      else none
    | _ => none

/-- Mmu::get_zero_page: when the whole range consists of zero-filled
    Unallocated entries of one permission, the pool's zero page for that
    permission. -/
def Mmu.getZeroPageFor (m : Mmu) (s len : Nat) : Option Nat :=
  match checkedAdd s (len - 1) with
  | none => none
  | some e =>
    match zeroScan (m.mapping.overlappingSegments s e) none with
    | none => none
    | some pm => m.physical.getZeroPage pm

/-- The zero-page rewrite closure of Mmu::init_physical: every overlap
    segment of the page is pointed at the zero page unconditionally. -/
def zeroMapF (zp : Nat) (pageStart : Nat) (st : Unit) (_s _len : Nat)
    (_entry : Option MemoryMapping) : Except Unit (Option MemoryMapping) × Unit :=
  (Except.ok (some (MemoryMapping.Physical ⟨zp, pageStart⟩)), st)

/-- The initialisation closure of Mmu::init_physical for a freshly
    allocated page physIdx.  Unallocated segments fill their bytes with the
    stored value and permission (plus MAP and the INIT policy bit) and are
    remapped; an existing Physical segment has its bytes and permissions
    copied over and is remapped; I/O segments and gaps fill the bytes with
    the UNINIT_VALUE sentinel and permission NONE without touching the
    mapping entry. -/
def initSegF (physIdx : Nat) (pageStart : Nat) (initPerm : Nat)
    (st : PhysicalMemory) (s len : Nat) (entry : Option MemoryMapping) :
    Except Unit (Option MemoryMapping) × PhysicalMemory :=
  let newMapping := MemoryMapping.Physical ⟨physIdx, pageStart⟩
  let off := PageData.offset s
  match entry with
  | some (MemoryMapping.Unallocated u) =>
    let page := st.get physIdx
    let d1 := (page.data.fillData off len u.value).fillPerm off len
      (u.perm ||| Perm.MAP ||| initPerm)
    (Except.ok (some newMapping), st.setPage physIdx { page with data := d1 })
  | some (MemoryMapping.Physical existing) =>
    let old := st.get existing.index
    let newPg := st.get physIdx
    let d1 : PageData :=
      { data := fun i => if off ≤ i ∧ i < off + len then old.data.data i
                         else newPg.data.data i,
        perm := fun i => if off ≤ i ∧ i < off + len then old.data.perm i
                         else newPg.data.perm i }
    (Except.ok (some newMapping), st.setPage physIdx { newPg with data := d1 })
  | some (MemoryMapping.Io _) =>
    let page := st.get physIdx
    let d1 := (page.data.fillData off len UNINIT_VALUE).fillPerm off len Perm.NONE
    (Except.ok entry, st.setPage physIdx { page with data := d1 })
  | none =>
    let page := st.get physIdx
    let d1 := (page.data.fillData off len UNINIT_VALUE).fillPerm off len Perm.NONE
    (Except.ok entry, st.setPage physIdx { page with data := d1 })

/-- Mmu::init_physical: materialise a physical page containing addr.  On a
    read of an all-zero Unallocated range the pool's shared zero page is
    mapped without allocating; otherwise a fresh page is allocated (none
    means the pool is exhausted), the TLB entry for the page is dropped,
    and every overlap segment initialises its part of the page. -/
def Mmu.initPhysical (m : Mmu) (addr : Nat) (isWrite : Bool) : Option Nat × Mmu :=
  let pageStart := pageBase addr
  let pageEnd := pageStart + (PAGE_SIZE - 1)
  match (if ENABLE_ZERO_PAGE_OPTIMIZATION = true ∧ isWrite = false
         then m.getZeroPageFor pageStart PAGE_SIZE else none) with
  | some zp =>
    match m.mapping.overlappingMut pageStart pageEnd () (zeroMapF zp pageStart) with
    | (_, mapping1, _) => (some zp, { m with mapping := mapping1 })
  | none =>
    match m.physical.alloc with
    | none => (none, m)
    | some (idx, phys1) =>
      let tlb1 := m.tlb.remove pageStart
      let initPerm := if m.trackUninitialized then Perm.NONE else Perm.INIT
      match m.mapping.overlappingMut pageStart pageEnd phys1 (initSegF idx pageStart initPerm) with
      | (_, mapping1, phys2) =>
        (some idx, { m with tlb := tlb1, mapping := mapping1, physical := phys2 })

/-- Mmu::read_physical: read the bytes with a per-byte permission check;
    when neither read nor read-after hooks cover the page, cache a read
    entry in the TLB. -/
def Mmu.readPhysical (m : Mmu) (index : Nat) (addr : Nat) (n p : Nat) :
    Except MemError (List Nat) × Mmu :=
  let page := m.physical.get index
  match page.data.readBytes addr n p with
  | Except.error er => (Except.error er, m)
  | Except.ok bytes =>
    if m.readHooks.containsAddress addr || m.readAfterHooks.containsAddress addr then
      (Except.ok bytes, m)
    else (Except.ok bytes, { m with tlb := m.tlb.insertRead addr })

/-- check_self_modifying_write of mmu.rs: the pre-scan zips the page bytes
    from the access offset with the value to be written and fails when a
    byte marked IN_CODE_CACHE would change. -/
def checkSelfModifyingWrite (pd : PageData) (addr : Nat) (v : List Nat) :
    Except MemError Unit :=
  let off := PageData.offset addr
  let n := min v.length (PAGE_SIZE - off)
  if (List.range n).any (fun i =>
      hasBit (pd.perm (off + i)) Perm.IN_CODE_CACHE && pd.data (off + i) != v.getD i 0)
  then Except.error MemError.SelfModifyingCode
  else Except.ok ()

/-- The mapping-rewrite closure of the copy-on-write step of
    Mmu::write_physical: every Physical entry of the page range is pointed
    at the clone. -/
def cowRewriteF (copyIdx : Nat) (pageStart : Nat) (st : Unit) (_s _len : Nat)
    (entry : Option MemoryMapping) : Except Unit (Option MemoryMapping) × Unit :=
  match entry with
  | some (MemoryMapping.Physical _) =>
    (Except.ok (some (MemoryMapping.Physical ⟨copyIdx, pageStart⟩)), st)
  | other => (Except.ok other, st)

/-- The copy-on-write step of Mmu::write_physical: when the page is marked
    copy_on_write, clone it (OutOfMemory when the pool is full) and rewrite
    every Physical mapping entry of the page range to the clone; returns
    the index to continue writing to. -/
def Mmu.cowResolve (m : Mmu) (index : Nat) (pageStart : Nat) :
    Except MemError (Nat × Mmu) :=
  if (m.physical.get index).copyOnWrite then
    match m.physical.clonePage index with
    | none => Except.error MemError.OutOfMemory
    | some (copyIdx, phys1) =>
      let pageEnd := pageStart + (PAGE_SIZE - 1)
      Except.ok (copyIdx,
        { m with physical := phys1,
                 mapping := (m.mapping.overlappingMut pageStart pageEnd ()
                              (cowRewriteF copyIdx pageStart)).2.1 })
  else Except.ok (index, m)

/-- The tail of Mmu::write_physical after the self-modifying-code pre-scan:
    resolve copy-on-write, drop the page's read TLB entry, record the page
    base in the modified set when the page's modified flag was clear, set
    the flag, perform the checked byte write, and cache a write TLB entry
    when no write hook covers the page. -/
def Mmu.writePhysicalCommit (m : Mmu) (index : Nat) (pageStart addr : Nat)
    (v : List Nat) (p : Nat) : Except MemError Unit × Mmu :=
  match m.cowResolve index pageStart with
  | Except.error er => (Except.error er, m)
  | Except.ok (idx1, m1) =>
    let tlb1 := m1.tlb.removeRead pageStart
    let page := m1.physical.get idx1
    let modified1 := if page.modified = false then insertSet m1.modified pageStart
                     else m1.modified
    let page1 := { page with modified := true }
    match page1.data.writeBytes addr v p with
    | Except.error er =>
      (Except.error er,
       { m1 with tlb := tlb1, modified := modified1,
                 physical := m1.physical.setPage idx1 page1 })
    | Except.ok pd1 =>
      let m2 := { m1 with tlb := tlb1, modified := modified1,
                          physical := m1.physical.setPage idx1 { page1 with data := pd1 } }
      if m2.writeHooks.containsAddress addr then (Except.ok (), m2)
      else (Except.ok (), { m2 with tlb := m2.tlb.insertWrite pageStart })

/-- Mmu::write_physical: for an executed page under
    detect_self_modifying_code, the pre-scan runs first and an offending
    byte aborts the write before any state is touched. -/
def Mmu.writePhysical (m : Mmu) (index : Nat) (addr : Nat) (v : List Nat) (p : Nat) :
    Except MemError Unit × Mmu :=
  let pageStart := pageBase addr
  if (m.physical.get index).executed = true ∧ m.detectSelfModifyingCode = true then
    match checkSelfModifyingWrite (m.physical.get index).data addr v with
    | Except.error er => (Except.error er, m)
    | Except.ok _ => m.writePhysicalCommit index pageStart addr v p
  else m.writePhysicalCommit index pageStart addr v p

/-- The read-hook dispatch loop of read_tlb_miss: walk the entries in
    order; every live entry whose [start, stop) contains addr has its
    handler invoked (recorded in the event list); the first handler that
    returns a value short-circuits the walk. -/
def runReadHooksGo (addr : Nat) (n : Nat) :
    List (HookEntry ReadHookFn) → Nat → List HookEvent → Option Nat × List HookEvent
  | [], _, tr => (none, tr)
  | hk :: rest, i, tr =>
    match hk.handler with
    | some f =>
      if hk.start ≤ addr ∧ addr < hk.stop then
        let tr1 := tr ++ [HookEvent.readBefore i addr n]
        match f addr n with
        | some v => (some v, tr1)
        | none => runReadHooksGo addr n rest (i + 1) tr1
      else runReadHooksGo addr n rest (i + 1) tr
    | none => runReadHooksGo addr n rest (i + 1) tr

/-- The value of the first live, in-range read hook whose handler returns a
    value (the value the dispatch loop short-circuits with). -/
def firstReadHookResult (hooks : List (HookEntry ReadHookFn)) (addr : Nat) (n : Nat) :
    Option Nat :=
  hooks.findSome? fun hk =>
    match hk.handler with
    | some f => if hk.start ≤ addr ∧ addr < hk.stop then f addr n else none
    | none => none

/-- Read-hook dispatch with the guard of read_tlb_miss: hooks only run when
    the requested permission is not NONE and the store is nonempty. -/
def Mmu.tryReadHooks (m : Mmu) (addr : Nat) (n p : Nat) : Option Nat × Mmu :=
  if p ≠ Perm.NONE ∧ m.readHooks.hooks.isEmpty = false then
    ((runReadHooksGo addr n m.readHooks.hooks 0 []).1,
     { m with hookTrace := m.hookTrace ++ (runReadHooksGo addr n m.readHooks.hooks 0 []).2 })
  else (none, m)

/-- The active_hooks! loop for handler stores whose handlers only observe
    (read-after and write hooks): record an event for every live in-range
    entry. -/
def runUnitHooksGo (addr : Nat) (mk : Nat → HookEvent) :
    List (HookEntry Unit) → Nat → List HookEvent → List HookEvent
  | [], _, tr => tr
  | hk :: rest, i, tr =>
    match hk.handler with
    | some _ =>
      if hk.start ≤ addr ∧ addr < hk.stop then
        runUnitHooksGo addr mk rest (i + 1) (tr ++ [mk i])
      else runUnitHooksGo addr mk rest (i + 1) tr
    | none => runUnitHooksGo addr mk rest (i + 1) tr

/-- The read-after dispatch of read_tlb_miss (guarded by a non-NONE
    permission; active_hooks! itself skips an empty store). -/
def Mmu.dispatchReadAfter (m : Mmu) (addr : Nat) (bytes : List Nat) (p : Nat) : Mmu :=
  if p ≠ Perm.NONE ∧ m.readAfterHooks.hooks.isEmpty = false then
    { m with hookTrace :=
        (runUnitHooksGo addr (fun i => HookEvent.readAfter i addr bytes)
          m.readAfterHooks.hooks 0 m.hookTrace) }
  else m

/-- The write-hook dispatch of write_tlb_miss. -/
def Mmu.dispatchWriteHooks (m : Mmu) (addr : Nat) (bytes : List Nat) (p : Nat) : Mmu :=
  if p ≠ Perm.NONE ∧ m.writeHooks.hooks.isEmpty = false then
    { m with hookTrace :=
        (runUnitHooksGo addr (fun i => HookEvent.writeAt i addr bytes)
          m.writeHooks.hooks 0 m.hookTrace) }
  else m

/-- The handle_io! read: index the I/O vector (out of range is a panic) and
    run the handler. -/
def Mmu.ioReadAt (m : Mmu) (id : Nat) (addr : Nat) (n : Nat) : Except OpError (List Nat) :=
  match m.io.get? id with
  | none => Except.error OpError.fatal
  | some dev => liftMem (dev.readFn addr n)

def Mmu.ioWriteAt (m : Mmu) (id : Nat) (addr : Nat) (v : List Nat) : Except OpError Unit :=
  match m.io.get? id with
  | none => Except.error OpError.fatal
  | some dev => liftMem (dev.writeFn addr v)

/-- Result of the mapping-walk part of a slow-path access.  The early
    variant marks results the source produces with the question-mark
    operator directly inside the walk (an unmapped address, a failed
    permission check on an Unallocated entry, pool exhaustion): these
    return from the whole function at once, skipping the byte-wise retry
    and the hook dispatch that follow.  The normal variant is the result
    the source binds and post-processes. -/
inductive SlowResult (α : Type) where
  | early (er : OpError)
  | normal (r : Except OpError α)

/-- The mapping consultation of read_tlb_miss (after hook dispatch): count
    the miss, look up the mapping range containing addr, and dispatch on
    the entry; an Io entry is remembered in the single-slot I/O cache. -/
def Mmu.readViaMapping (m0 : Mmu) (addr : Nat) (n p : Nat) :
    SlowResult (List Nat) × Mmu :=
  let m := { m0 with tlbMissCount := m0.tlbMissCount + 1 }
  match m.mapping.getWithRange addr with
  | none => (SlowResult.early (OpError.mem MemError.Unmapped), m)
  | some (_, _, MemoryMapping.Physical pe) =>
    let r := m.readPhysical pe.index addr n p
    (SlowResult.normal (liftMem r.1), r.2)
  | some (_, _, MemoryMapping.Unallocated u) =>
    match Perm.check (u.perm ||| Perm.MAP) p with
    | Except.error er => (SlowResult.early (OpError.mem er), m)
    | Except.ok _ =>
      match m.initPhysical addr false with
      | (none, m1) => (SlowResult.early (OpError.mem MemError.OutOfMemory), m1)
      | (some idx, m1) =>
        let r := m1.readPhysical idx addr n p
        (SlowResult.normal (liftMem r.1), r.2)
  | some (s, e, MemoryMapping.Io id) =>
    let m1 := { m with lastIoHandler := some (s, e, id) }
    (SlowResult.normal (m1.ioReadAt id addr n), m1)

/-- The I/O-cache check and mapping consultation of read_tlb_miss. -/
def Mmu.readAccess (m : Mmu) (addr : Nat) (n p : Nat) : SlowResult (List Nat) × Mmu :=
  match m.lastIoHandler with
  | some (s, e, id) =>
    if s ≤ addr ∧ addr ≤ e then (SlowResult.normal (m.ioReadAt id addr n), m)
    else m.readViaMapping addr n p
  | none => m.readViaMapping addr n p

/-- The n low little-endian bytes of a u64 value (to_le_bytes truncated);
    meaningful for n up to 8, the width of the source array. -/
def leBytes (v : Nat) (n : Nat) : List Nat :=
  (List.range n).map fun i => v / 2 ^ (8 * i) % 256

/-- read_tlb_miss::<1>: one-byte reads are always aligned and never take
    the byte-wise retry, so the slow path is hook dispatch, the access, and
    the read-after dispatch on success. -/
def Mmu.readSlow1 (m : Mmu) (addr : Nat) (p : Nat) : Except OpError (List Nat) × Mmu :=
  match m.tryReadHooks addr 1 p with
  | (some v, m1) => (Except.ok (leBytes v 1), m1)
  | (none, m1) =>
    match m1.readAccess addr 1 p with
    | (SlowResult.early er, m2) => (Except.error er, m2)
    | (SlowResult.normal r, m2) =>
      match r with
      | Except.ok bytes => (Except.ok bytes, m2.dispatchReadAfter addr bytes p)
      | Except.error er => (Except.error er, m2)

/-- read_unaligned of mmu.rs: n independent one-byte reads at successive
    addresses, aborted by the first failure. -/
def Mmu.readUnalignedGo (m : Mmu) (addr : Nat) (p : Nat) :
    Nat → Nat → List Nat → Except OpError (List Nat) × Mmu
  | _, 0, acc => (Except.ok acc, m)
  | i, Nat.succ left, acc =>
    match m.readSlow1 (addr + i) p with
    | (Except.ok b, m1) => m1.readUnalignedGo addr p (i + 1) left (acc ++ b)
    | (Except.error er, m1) => (Except.error er, m1)

def Mmu.readUnalignedN (m : Mmu) (addr : Nat) (n p : Nat) :
    Except OpError (List Nat) × Mmu :=
  m.readUnalignedGo addr p 0 n []

/-- read_tlb_miss::<N> of mmu.rs.  An unaligned address degrades to the
    byte-wise path; a read hook returning a value short-circuits with its
    low bytes (the source slices to_le_bytes()[..N], a panic when N is
    16); a normal Unmapped result of a multi-byte access is retried once
    byte-wise; any other successful result dispatches read-after hooks. -/
def Mmu.readTlbMiss (m : Mmu) (addr : Nat) (n p : Nat) :
    Except OpError (List Nat) × Mmu :=
  if addr % n ≠ 0 then m.readUnalignedN addr n p
  else
    match m.tryReadHooks addr n p with
    | (some v, m1) =>
      (if n ≤ 8 then Except.ok (leBytes v n) else Except.error OpError.fatal, m1)
    | (none, m1) =>
      match m1.readAccess addr n p with
      | (SlowResult.early er, m2) => (Except.error er, m2)
      | (SlowResult.normal r, m2) =>
        if n ≠ 1 ∧ r = Except.error (OpError.mem MemError.Unmapped) then
          m2.readUnalignedN addr n p
        else
          match r with
          | Except.ok bytes => (Except.ok bytes, m2.dispatchReadAfter addr bytes p)
          | Except.error er => (Except.error er, m2)

/-- The mapping consultation of write_tlb_miss (the write path has no
    I/O-cache check). -/
def Mmu.writeViaMapping (m0 : Mmu) (addr : Nat) (v : List Nat) (p : Nat) :
    SlowResult Unit × Mmu :=
  let m := { m0 with tlbMissCount := m0.tlbMissCount + 1 }
  match m.mapping.get? addr with
  | none => (SlowResult.early (OpError.mem MemError.Unmapped), m)
  | some (MemoryMapping.Physical pe) =>
    let r := m.writePhysical pe.index addr v p
    (SlowResult.normal (liftMem r.1), r.2)
  | some (MemoryMapping.Unallocated u) =>
    match Perm.check (u.perm ||| Perm.MAP) p with
    | Except.error er => (SlowResult.early (OpError.mem er), m)
    | Except.ok _ =>
      match m.initPhysical addr true with
      | (none, m1) => (SlowResult.early (OpError.mem MemError.OutOfMemory), m1)
      | (some idx, m1) =>
        let r := m1.writePhysical idx addr v p
        (SlowResult.normal (liftMem r.1), r.2)
  | some (MemoryMapping.Io id) =>
    (SlowResult.normal (m.ioWriteAt id addr v), m)

/-- write_tlb_miss::<1>: hook dispatch follows the access for normal
    results (including errors), but not for early returns. -/
def Mmu.writeSlow1 (m : Mmu) (addr : Nat) (b : Nat) (p : Nat) :
    Except OpError Unit × Mmu :=
  match m.writeViaMapping addr [b] p with
  | (SlowResult.early er, m1) => (Except.error er, m1)
  | (SlowResult.normal r, m1) => (r, m1.dispatchWriteHooks addr [b] p)

/-- write_unaligned of mmu.rs. -/
def Mmu.writeUnalignedGo (m : Mmu) (addr : Nat) (p : Nat) :
    Nat → List Nat → Except OpError Unit × Mmu
  | _, [] => (Except.ok (), m)
  | i, b :: rest =>
    match m.writeSlow1 (addr + i) b p with
    | (Except.ok _, m1) => m1.writeUnalignedGo addr p (i + 1) rest
    | (Except.error er, m1) => (Except.error er, m1)

def Mmu.writeUnalignedN (m : Mmu) (addr : Nat) (v : List Nat) (p : Nat) :
    Except OpError Unit × Mmu :=
  m.writeUnalignedGo addr p 0 v

/-- write_tlb_miss::<N> of mmu.rs; the access width is the length of v. -/
def Mmu.writeTlbMiss (m : Mmu) (addr : Nat) (v : List Nat) (p : Nat) :
    Except OpError Unit × Mmu :=
  if addr % v.length ≠ 0 then m.writeUnalignedN addr v p
  else
    match m.writeViaMapping addr v p with
    | (SlowResult.early er, m1) => (Except.error er, m1)
    | (SlowResult.normal r, m1) =>
      if v.length ≠ 1 ∧ r = Except.error (OpError.mem MemError.Unmapped) then
        m1.writeUnalignedN addr v p
      else (r, m1.dispatchWriteHooks addr v p)

/-- A sequence of write_physical calls, for stating trace properties of the
    page-modification log. -/
structure WriteCall where
  index : Nat
  addr : Nat
  value : List Nat
  perm : Nat

/-- Run a sequence of write_physical calls, keeping only the states. -/
def Mmu.runWrites (m : Mmu) : List WriteCall → Mmu
  | [] => m
  | c :: rest => ((m.writePhysical c.index c.addr c.value c.perm).2).runWrites rest

/-- The page base recorded by one write_physical call when the modified
    flag of the page it writes (after copy-on-write resolution)
    transitions from false to true; none when the call aborts before
    marking the page or finds the flag already set. -/
def Mmu.writeTransitionBase (m : Mmu) (index : Nat) (addr : Nat) (v : List Nat) :
    Option Nat :=
  let pageStart := pageBase addr
  let commitPart :=
    match m.cowResolve index pageStart with
    | Except.error _ => none
    | Except.ok (idx1, m1) =>
      if (m1.physical.get idx1).modified = false then some pageStart else none
  if (m.physical.get index).executed = true ∧ m.detectSelfModifyingCode = true then
    match checkSelfModifyingWrite (m.physical.get index).data addr v with
    | Except.error _ => none
    | Except.ok _ => commitPart
  else commitPart

/-- The page bases at which the modified flag of the written page
    transitioned false to true along a sequence of write_physical calls. -/
def Mmu.transitionBases (m : Mmu) : List WriteCall → List Nat
  | [] => []
  | c :: rest =>
    (match m.writeTransitionBase c.index c.addr c.value with
     | some b => [b]
     | none => []) ++ ((m.writePhysical c.index c.addr c.value c.perm).2).transitionBases rest

/-- An empty Mmu, the base of the concrete states used below (Mmu::new,
    with the spec-modelled pool given a small capacity). -/
def mmuBase : Mmu :=
  { trackUninitialized := false
    detectSelfModifyingCode := DETECT_SELF_MODIFYING_CODE
    tlbMissCount := 0
    mappingChanged := false
    modified := []
    tlb := TranslationCache.empty
    mapping := []
    readHooks := ⟨[]⟩
    readAfterHooks := ⟨[]⟩
    writeHooks := ⟨[]⟩
    physical := { pages := [], capacity := 16, zeroPages := [] }
    io := []
    lastIoHandler := none
    hookTrace := [] }

/-- A hook store with a single live hook, for exercising slot reuse. -/
def hookStoreC1 : HookStore Nat := ⟨[⟨1, 2, some 7⟩]⟩

/-- A state with a nonempty TLB and one live hook in each store. -/
def mmuC8 : Mmu :=
  { mmuBase with
    tlb := ⟨[0x1000], [0x2000]⟩
    readHooks := ⟨[⟨0x50, 0x60, some fun _ _ => none⟩]⟩
    readAfterHooks := ⟨[⟨0x50, 0x60, some ()⟩]⟩
    writeHooks := ⟨[⟨0x50, 0x60, some ()⟩]⟩ }

/-- A state with one read hook over [0, 0x100) whose handler always
    synthesises the value 0xAB. -/
def mmuC3 : Mmu :=
  { mmuBase with readHooks := ⟨[⟨0, 0x100, some fun _ _ => some 0xAB⟩]⟩ }

/-- A state with an empty mapping and a read hook over [0, 2) whose handler
    synthesises 0x42 for one-byte accesses only. -/
def mmuC6gap : Mmu :=
  { mmuBase with
    readHooks := ⟨[⟨0, 2, some fun _ sz => if sz = 1 then some 0x42 else none⟩]⟩ }

/-- A page whose first two bytes are 0xAA 0xBB and readable, the rest
    unmapped (permission NONE). -/
def pageC6 : Page :=
  { data := { data := fun i => if i = 0 then 0xAA else if i = 1 then 0xBB else 0,
              perm := fun i => if i < 2 then Perm.READ ||| Perm.MAP ||| Perm.INIT
                               else Perm.NONE }
    executed := false, modified := false, copyOnWrite := false }

/-- A state whose mapping splits the page at 0x1000 between a two-byte
    Physical entry and an Unallocated remainder with fill value 0xCC: an
    aligned four-byte read at 0x1000 crosses the boundary. -/
def mmuC6x : Mmu :=
  { mmuBase with
    mapping := [(0x1000, 0x1001, MemoryMapping.Physical ⟨0, 0x1000⟩),
                (0x1002, 0x1fff, MemoryMapping.Unallocated ⟨0xCC, Perm.READ⟩)]
    physical := { pages := [pageC6], capacity := 16, zeroPages := [] } }

/-- A state with one Unallocated mapping, a primed I/O cache and a clear
    mapping_changed flag, for observing the side effects of the mapping
    manager. -/
def mmuC4 : Mmu :=
  { mmuBase with
    mapping := [(0x1000, 0x1fff, MemoryMapping.Unallocated ⟨0, 3⟩)]
    lastIoHandler := some (0x7000, 0x7fff, 0) }

/-- A state whose only page is an executed code page: every byte is 0x41
    and carries IN_CODE_CACHE. -/
def mmuC2 : Mmu :=
  { mmuBase with
    physical :=
      { pages := [{ data := { data := fun _ => 0x41,
                              perm := fun _ => Perm.READ ||| Perm.WRITE ||| Perm.EXEC |||
                                Perm.INIT ||| Perm.MAP ||| Perm.IN_CODE_CACHE },
                    executed := true, modified := false, copyOnWrite := false }],
        capacity := 16, zeroPages := [] } }

/-- A state with one all-zero Unallocated mapping over a full page and a
    pool that designates page 0 as the zero page for that permission. -/
def mmuC7 : Mmu :=
  { mmuBase with
    mapping := [(0x2000, 0x2fff, MemoryMapping.Unallocated ⟨0, Perm.READ⟩)]
    physical := { pages := [emptyPage], capacity := 16, zeroPages := [(Perm.READ, 0)] } }

/-- An entry of the TLB for page base a exists (on either side). -/
def TranslationCache.hasEntry (t : TranslationCache) (a : Nat) : Prop :=
  a ∈ t.readEntries ∨ a ∈ t.writeEntries

/-- The page of a TLB key a overlaps the byte range of length len at s
    (the complement of the keep-predicate of removeRange). -/
def pagesOverlap (a s len : Nat) : Prop :=
  s ≤ a + (PAGE_SIZE - 1) ∧ a < s + len

/-- The state mmuC4 with a stale TLB entry covering its mapped page, for
    observing which mapping-manager operations drop TLB entries. -/
def mmuC4b : Mmu := { mmuC4 with tlb := ⟨[0x1000], [0x1000]⟩ }

/-- A writable page whose first two bytes are mapped, the rest unmapped. -/
def pageC6w : Page :=
  { data := { data := fun _ => 0,
              perm := fun i => if i < 2 then
                  Perm.READ ||| Perm.WRITE ||| Perm.MAP ||| Perm.INIT
                else Perm.NONE }
    executed := false, modified := false, copyOnWrite := false }

/-- A state whose mapping splits the page at 0x1000 between a two-byte
    writable Physical entry and a writable Unallocated remainder: an
    aligned four-byte write at 0x1000 crosses the boundary. -/
def mmuC6w : Mmu :=
  { mmuBase with
    mapping := [(0x1000, 0x1001, MemoryMapping.Physical ⟨0, 0x1000⟩),
                (0x1002, 0x1fff,
                 MemoryMapping.Unallocated ⟨0xCC, Perm.READ ||| Perm.WRITE⟩)]
    physical := { pages := [pageC6w], capacity := 16, zeroPages := [] } }

/-- C1: exercising HookStore at the failing input.  After remove(0) frees
    slot 0, add(10, 20, 99) returns id 0 but leaves the store unchanged:
    slot 0 is still the dummy entry with no handler, and the handler 99 was
    dropped, so the returned id does not identify a live hook with range
    [10, 20) and handler 99.  The claim (and the source's own comments
    about reusing dead slots) say the freed slot is reused for the new
    hook. -/
theorem c1_hookstore_add_drops_reused_handler :
    (hookStoreC1.remove 0).1 = true ∧
    ((hookStoreC1.remove 0).2.add 10 20 99).2 = 0 ∧
    ((hookStoreC1.remove 0).2.add 10 20 99).1 = (hookStoreC1.remove 0).2 ∧
    (((hookStoreC1.remove 0).2.add 10 20 99).1.hooks.getD 0 ⟨9, 9, none⟩).handler = none ∧
    (∀ hk ∈ ((hookStoreC1.remove 0).2.add 10 20 99).1.hooks, hk.handler ≠ some 99) := by
  decide

/-- C2: for a write_physical to an executed page under
    detect_self_modifying_code, when some byte of the written range is
    marked IN_CODE_CACHE and would change, the call returns
    SelfModifyingCode with the whole Mmu state unchanged (in particular the
    page's data bytes, its permission bytes, and the modified set): the
    pre-scan runs before any mutation. -/
theorem c2_write_physical_self_modifying (m : Mmu) (index : Nat) (addr : Nat)
    (v : List Nat) (p : Nat) (i : Nat)
    (hd : m.detectSelfModifyingCode = true)
    (he : (m.physical.get index).executed = true)
    (hi1 : i < v.length)
    (hi2 : i < PAGE_SIZE - PageData.offset addr)
    (hc : hasBit ((m.physical.get index).data.perm (PageData.offset addr + i))
            Perm.IN_CODE_CACHE = true)
    (hne : (m.physical.get index).data.data (PageData.offset addr + i) ≠ v.getD i 0) :
    m.writePhysical index addr v p = (Except.error MemError.SelfModifyingCode, m) := by
  have hcheck : checkSelfModifyingWrite (m.physical.get index).data addr v =
      Except.error MemError.SelfModifyingCode := by
    unfold checkSelfModifyingWrite
    rw [if_pos]
    exact List.any_eq_true.mpr
      ⟨i, List.mem_range.mpr (by omega), by
        rw [Bool.and_eq_true]
        exact ⟨hc, bne_iff_ne.mpr hne⟩⟩
  unfold Mmu.writePhysical
  rw [if_pos ⟨he, hd⟩, hcheck]

/-- C2 witness: a concrete executed code page rejects an overwrite of a
    cached byte and the state is returned untouched. -/
theorem c2_witness :
    mmuC2.writePhysical 0 0 [0x90] Perm.WRITE =
      (Except.error MemError.SelfModifyingCode, mmuC2) :=
  c2_write_physical_self_modifying mmuC2 0 0 [0x90] Perm.WRITE 0 rfl rfl
    (by decide) (by decide) (by decide) (by decide)

/-- C8 counterexample: a state with a nonempty TLB on which
    remove_write_hook, remove_read_hook and remove_read_after_hook all
    succeed yet leave the TLB exactly as it was (and nonempty), contrary to
    the claim that every hook-store mutation leaves the TLB empty. -/
theorem c8_remove_hooks_leave_tlb_untouched :
    (mmuC8.removeWriteHook 0).1 = true ∧
    (mmuC8.removeWriteHook 0).2.tlb = mmuC8.tlb ∧
    (mmuC8.removeReadHook 0).2.tlb = mmuC8.tlb ∧
    (mmuC8.removeReadAfterHook 0).2.tlb = mmuC8.tlb ∧
    mmuC8.tlb.readEntries ≠ [] := by
  exact ⟨rfl, rfl, rfl, rfl, by decide⟩

/-- C8 amended: the three add operations clear the entire TLB; the three
    remove operations leave the TLB unchanged. -/
theorem c8_hook_mutation_tlb (m : Mmu) (s e : Nat) (hr : ReadHookFn) (hu : Unit)
    (id : Nat) :
    (m.addReadHook s e hr).2.tlb = TranslationCache.empty ∧
    (m.addReadAfterHook s e hu).2.tlb = TranslationCache.empty ∧
    (m.addWriteHook s e hu).2.tlb = TranslationCache.empty ∧
    (m.removeReadHook id).2.tlb = m.tlb ∧
    (m.removeReadAfterHook id).2.tlb = m.tlb ∧
    (m.removeWriteHook id).2.tlb = m.tlb :=
  ⟨rfl, rfl, rfl, rfl, rfl, rfl⟩

/-- C9: map_memory_len and unmap_memory_len return false on a zero length
    or when start + len - 1 overflows u64, with the whole state (mapping,
    TLB, mapping_changed) unchanged. -/
theorem c9_map_unmap_guard (m : Mmu) (s l : Nat) (mp : MemoryMapping)
    (h : l = 0 ∨ checkedAdd s (l - 1) = none) :
    m.mapMemoryLen s l mp = (false, m) ∧ m.unmapMemoryLen s l = (false, m) := by
  rcases h with h | h
  · subst h; exact ⟨rfl, rfl⟩
  · by_cases hl : l = 0
    · subst hl; exact ⟨rfl, rfl⟩
    · constructor
      · unfold Mmu.mapMemoryLen
        rw [if_neg hl, h]
      · unfold Mmu.unmapMemoryLen
        rw [if_neg hl, h]

/-- C9 witness: the guards at a zero length and at an end address
    overflowing u64. -/
theorem c9_witness :
    (mmuBase.mapMemoryLen 5 0 (MemoryMapping.Io 0) = (false, mmuBase) ∧
     mmuBase.unmapMemoryLen 5 0 = (false, mmuBase)) ∧
    (mmuBase.mapMemoryLen (U64_SIZE - 1) 2 (MemoryMapping.Io 0) = (false, mmuBase) ∧
     mmuBase.unmapMemoryLen (U64_SIZE - 1) 2 = (false, mmuBase)) :=
  ⟨c9_map_unmap_guard mmuBase 5 0 (MemoryMapping.Io 0) (Or.inl rfl),
   c9_map_unmap_guard mmuBase (U64_SIZE - 1) 2 (MemoryMapping.Io 0) (Or.inr (by decide))⟩

/-- C3 counterexample: a live read hook over [0, 0x100) whose handler
    always returns a value.  For the aligned sixteen-byte slow-path read at
    0 the source slices to_le_bytes()[..16] out of the eight-byte array, a
    panic: the read does not return the low bytes of the synthesised
    value. -/
theorem c3_hook_short_circuit_panics_at_16 :
    (mmuC3.readTlbMiss 0 16 Perm.READ).1 = Except.error OpError.fatal := by
  decide

/-- C4 counterexample: on a state with a primed I/O cache and a clear
    mapping_changed flag, fill_mem succeeds on a nonempty range yet leaves
    mapping_changed false and the I/O cache intact; unmap_memory_len and
    update_perm succeed yet leave the I/O cache intact; move_region_len
    succeeds yet leaves mapping_changed false.  On the same state carrying
    a stale TLB entry for the page of the (Unallocated-mapped) touched
    range, fill_mem, unmap_memory_len and update_perm all leave the TLB
    exactly as it was: only Physical sub-ranges have their TLB entries
    removed.  A one-byte move_region_len succeeds as a complete no-op (the
    relocation loop requires start < end), so it removes no TLB entries
    and leaves the I/O cache intact as well. -/
theorem c4_mapping_ops_missing_side_effects :
    ((mmuC4.fillMem 0x1000 0x10 5).1 = Except.ok () ∧
     (mmuC4.fillMem 0x1000 0x10 5).2.mappingChanged = false ∧
     (mmuC4.fillMem 0x1000 0x10 5).2.lastIoHandler = some (0x7000, 0x7fff, 0) ∧
     (mmuC4b.fillMem 0x1000 0x10 5).2.tlb = mmuC4b.tlb) ∧
    ((mmuC4.unmapMemoryLen 0x1000 0x1000).1 = true ∧
     (mmuC4.unmapMemoryLen 0x1000 0x1000).2.lastIoHandler = some (0x7000, 0x7fff, 0) ∧
     (mmuC4b.unmapMemoryLen 0x1000 0x1000).2.tlb = mmuC4b.tlb) ∧
    ((mmuC4.updatePerm 0x1000 0x1000 3).1 = Except.ok () ∧
     (mmuC4.updatePerm 0x1000 0x1000 3).2.lastIoHandler = some (0x7000, 0x7fff, 0) ∧
     (mmuC4b.updatePerm 0x1000 0x1000 3).2.tlb = mmuC4b.tlb) ∧
    ((mmuC4.moveRegionLen 0x1000 0x1000 0x5000).1 = Except.ok () ∧
     (mmuC4.moveRegionLen 0x1000 0x1000 0x5000).2.mappingChanged = false) ∧
    (mmuC4b.moveRegionLen 0x1000 1 0x5000 = (Except.ok (), mmuC4b)) := by
  refine ⟨by decide, by decide, by decide, by decide, rfl⟩

/-- C6 counterexample: with an empty mapping and a read hook that
    synthesises a value for one-byte accesses only, the aligned two-byte
    slow-path read at 0 yields Unmapped, yet the result is that error and
    not the result of two independent one-byte reads, which would succeed:
    the unmapped-address error propagates out before the byte-wise retry. -/
theorem c6_no_retry_when_address_unmapped :
    (mmuC6gap.readTlbMiss 0 2 Perm.READ).1 =
      Except.error (OpError.mem MemError.Unmapped) ∧
    (mmuC6gap.readUnalignedN 0 2 Perm.READ).1 = Except.ok [0x42, 0x42] := by
  decide

/-- Helper: the loop of move_region_len never touches mapping_changed. -/
theorem moveRegionGo_mappingChanged : ∀ (fuel : Nat) (m : Mmu) (o : Int) (s e : Nat),
    ((Mmu.moveRegionGo fuel m o s e).2).mappingChanged = m.mappingChanged := by
  intro fuel
  induction fuel with
  | zero => intro m o s e; rfl
  | succ f ih =>
    intro m o s e
    simp only [Mmu.moveRegionGo]
    split
    · split
      · rfl
      · split
        · rfl
        · split
          · rfl
          · exact ih _ _ _ _
    · rfl

/-- Helper: when the loop of move_region_len succeeds after at least one
    pass, the I/O cache ends up invalidated. -/
theorem moveRegionGo_lastIo : ∀ (fuel : Nat) (m : Mmu) (o : Int) (s e : Nat),
    (Mmu.moveRegionGo fuel m o s e).1 = Except.ok () → s < e →
    ((Mmu.moveRegionGo fuel m o s e).2).lastIoHandler = none := by
  intro fuel
  induction fuel with
  | zero =>
    intro m o s e h _
    exact absurd h (by simp [Mmu.moveRegionGo])
  | succ f ih =>
    intro m o s e
    simp only [Mmu.moveRegionGo]
    split
    · split
      · intro h _
        exact absurd h (by simp)
      · split
        · intro h _
          exact absurd h (by simp)
        · split
          · intro h _
            exact absurd h (by simp)
          · intro h _
            rename_i hse1 xrl v os oe mapping1 hrl hoe xin mapping2 hins hse2
            by_cases hso : s < os
            · exact ih _ _ _ _ h hso
            · cases f with
              | zero => exact absurd h (by simp [Mmu.moveRegionGo])
              | succ f2 =>
                simp only [Mmu.moveRegionGo, if_neg hso] at h ⊢
    · intro h hse
      rename_i hns
      exact absurd hse hns

/-- Helper: removeRange drops every entry whose page overlaps the range. -/
theorem removeRange_not_hasEntry (t : TranslationCache) (s len a : Nat)
    (h : pagesOverlap a s len) : ¬ (t.removeRange s len).hasEntry a := by
  intro hc
  unfold pagesOverlap at h
  unfold TranslationCache.hasEntry TranslationCache.removeRange at hc
  dsimp only at hc
  rcases hc with hc | hc <;> rw [List.mem_filter] at hc <;>
    rcases of_decide_eq_true hc.2 with h3 | h3 <;> omega

/-- Helper: removeRange only ever removes entries. -/
theorem removeRange_hasEntry_mono (t : TranslationCache) (s len a : Nat)
    (h : (t.removeRange s len).hasEntry a) : t.hasEntry a := by
  unfold TranslationCache.hasEntry TranslationCache.removeRange at *
  dsimp only at h
  rcases h with h | h <;> rw [List.mem_filter] at h
  · exact Or.inl h.1
  · exact Or.inr h.1

/-- Helper: a walk whose callback only narrows the TLB (seen through the
    state projection pi) never adds a TLB entry. -/
theorem overMutGo_tlb_mono {σ ε α : Type} (pi : σ → TranslationCache)
    (f : σ → Nat → Nat → Option α → Except ε (Option α) × σ)
    (hf : ∀ st s len v a, (pi (f st s len v).2).hasEntry a → (pi st).hasEntry a) :
    ∀ (segs : List (Nat × Nat × Option α)) (st : σ) (a : Nat),
      (pi (overMutGo f segs st).2.2).hasEntry a → (pi st).hasEntry a := by
  intro segs
  induction segs with
  | nil => intro st a h; exact h
  | cons r rest ih =>
    intro st a h
    rcases r with ⟨s, e, v⟩
    unfold overMutGo at h
    split at h
    · rename_i err st1 heq
      refine hf st s (e - s + 1) v a ?_
      rw [heq]
      exact h
    · rename_i v1 st1 heq
      dsimp only at h
      refine hf st s (e - s + 1) v a ?_
      rw [heq]
      exact ih st1 a h

/-- Helper: a walk whose callback never fails reports no error. -/
theorem overMutGo_err_free {σ ε α : Type}
    (f : σ → Nat → Nat → Option α → Except ε (Option α) × σ)
    (hok : ∀ st s len v, ∃ v1 st1, f st s len v = (Except.ok v1, st1)) :
    ∀ (segs : List (Nat × Nat × Option α)) (st : σ),
      (overMutGo f segs st).1 = none := by
  intro segs
  induction segs with
  | nil => intro st; rfl
  | cons r rest ih =>
    intro st
    rcases r with ⟨s, e, v⟩
    obtain ⟨v1, st1, heq⟩ := hok st s (e - s + 1) v
    unfold overMutGo
    rw [heq]
    exact ih st1

/-- Helper: when the walk finishes without error, every segment on which
    the callback clears the overlapping TLB entries (segments selected by
    Q) has those entries absent from the final TLB. -/
theorem overMutGo_tlb_removes {σ ε α : Type} (pi : σ → TranslationCache)
    (f : σ → Nat → Nat → Option α → Except ε (Option α) × σ)
    (Q : Option α → Prop)
    (hf : ∀ st s len v a, (pi (f st s len v).2).hasEntry a → (pi st).hasEntry a)
    (hrem : ∀ st s len v a, Q v → pagesOverlap a s len →
      ¬ (pi (f st s len v).2).hasEntry a) :
    ∀ (segs : List (Nat × Nat × Option α)) (st : σ),
      (overMutGo f segs st).1 = none →
      ∀ s e v, (s, e, v) ∈ segs → Q v →
      ∀ a, pagesOverlap a s (e - s + 1) →
      ¬ (pi (overMutGo f segs st).2.2).hasEntry a := by
  intro segs
  induction segs with
  | nil =>
    intro st _ s e v hmem
    cases hmem
  | cons r rest ih =>
    intro st
    rcases r with ⟨s0, e0, v0⟩
    unfold overMutGo
    split
    · intro herr
      simp at herr
    · rename_i v1 st1 heq
      dsimp only
      intro herr s e v hmem hQ a hov hc
      rcases List.mem_cons.mp hmem with hhd | htl
      · rw [Prod.mk.injEq, Prod.mk.injEq] at hhd
        obtain ⟨rfl, hhd2⟩ := hhd
        obtain ⟨rfl, rfl⟩ := hhd2
        have habs : ¬ (pi st1).hasEntry a := by
          have h0 := hrem st s (e - s + 1) v a hQ hov
          rw [heq] at h0
          exact h0
        exact habs (overMutGo_tlb_mono pi f hf rest st1 a hc)
      · exact (ih st1 herr s e v htl hQ a hov) hc

/-- Helper: the unmap closure never fails. -/
theorem unmapSegF_ok (st : TranslationCache × PhysicalMemory × Bool)
    (s len : Nat) (v : Option MemoryMapping) :
    ∃ v1 st1, unmapSegF st s len v = (Except.ok v1, st1) := by
  unfold unmapSegF
  rcases v with _ | mm
  · exact ⟨_, _, rfl⟩
  · rcases mm with pe | u | id
    · dsimp only
      split
      · exact ⟨_, _, rfl⟩
      · exact ⟨_, _, rfl⟩
    · exact ⟨_, _, rfl⟩
    · exact ⟨_, _, rfl⟩

/-- Helper: the unmap closure only removes TLB entries. -/
theorem unmapSegF_tlb_mono (st : TranslationCache × PhysicalMemory × Bool)
    (s len : Nat) (v : Option MemoryMapping) (a : Nat)
    (h : ((unmapSegF st s len v).2.1).hasEntry a) : st.1.hasEntry a := by
  unfold unmapSegF at h
  rcases v with _ | mm
  · exact h
  · rcases mm with pe | u | id
    · dsimp only at h
      split at h
      · exact removeRange_hasEntry_mono _ _ _ _ h
      · exact removeRange_hasEntry_mono _ _ _ _ h
    · exact h
    · exact h

/-- Helper: on a Physical segment the unmap closure clears the TLB
    entries overlapping the segment. -/
theorem unmapSegF_tlb_removes (st : TranslationCache × PhysicalMemory × Bool)
    (s len : Nat) (pm : PhysicalMapping) (a : Nat) (hov : pagesOverlap a s len) :
    ¬ ((unmapSegF st s len (some (MemoryMapping.Physical pm))).2.1).hasEntry a := by
  unfold unmapSegF
  dsimp only
  split
  · exact removeRange_not_hasEntry _ _ _ _ hov
  · exact removeRange_not_hasEntry _ _ _ _ hov

/-- Helper: the update_perm closure only removes TLB entries. -/
theorem updatePermSegF_tlb_mono (p1 : Nat) (st : TranslationCache × PhysicalMemory)
    (s len : Nat) (v : Option MemoryMapping) (a : Nat)
    (h : ((updatePermSegF p1 st s len v).2.1).hasEntry a) : st.1.hasEntry a := by
  unfold updatePermSegF at h
  rcases v with _ | mm
  · exact h
  · rcases mm with pe | u | id
    · dsimp only at h
      split at h <;> exact removeRange_hasEntry_mono _ _ _ _ h
    · exact h
    · exact h

/-- Helper: on a Physical segment the update_perm closure clears the TLB
    entries overlapping the segment. -/
theorem updatePermSegF_tlb_removes (p1 : Nat) (st : TranslationCache × PhysicalMemory)
    (s len : Nat) (pm : PhysicalMapping) (a : Nat) (hov : pagesOverlap a s len) :
    ¬ ((updatePermSegF p1 st s len (some (MemoryMapping.Physical pm))).2.1).hasEntry a := by
  unfold updatePermSegF
  dsimp only
  split <;> exact removeRange_not_hasEntry _ _ _ _ hov

/-- Helper: the fill_mem closure only removes TLB entries. -/
theorem fillMemSegF_tlb_mono (v0 : Nat) (d : Bool) (st : TranslationCache × PhysicalMemory)
    (s len : Nat) (v : Option MemoryMapping) (a : Nat)
    (h : ((fillMemSegF v0 d st s len v).2.1).hasEntry a) : st.1.hasEntry a := by
  unfold fillMemSegF at h
  rcases v with _ | mm
  · exact h
  · rcases mm with pe | u | id
    · dsimp only at h
      split at h <;>
        first
          | exact removeRange_hasEntry_mono _ _ _ _ h
          | (split at h <;> exact removeRange_hasEntry_mono _ _ _ _ h)
    · exact h
    · exact h

/-- Helper: on a Physical segment the fill_mem closure clears the TLB
    entries overlapping the segment, whether or not the fill goes ahead. -/
theorem fillMemSegF_tlb_removes (v0 : Nat) (d : Bool) (st : TranslationCache × PhysicalMemory)
    (s len : Nat) (pm : PhysicalMapping) (a : Nat) (hov : pagesOverlap a s len) :
    ¬ ((fillMemSegF v0 d st s len (some (MemoryMapping.Physical pm))).2.1).hasEntry a := by
  unfold fillMemSegF
  dsimp only
  split <;>
    first
      | exact removeRange_not_hasEntry _ _ _ _ hov
      | (split <;> exact removeRange_not_hasEntry _ _ _ _ hov)

/-- Helper: the loop of move_region_len only removes TLB entries. -/
theorem moveRegionGo_tlb_mono : ∀ (fuel : Nat) (m : Mmu) (o : Int) (s e a : Nat),
    (((Mmu.moveRegionGo fuel m o s e).2).tlb).hasEntry a → (m.tlb).hasEntry a := by
  intro fuel
  induction fuel with
  | zero => intro m o s e a h; exact h
  | succ f ih =>
    intro m o s e a
    simp only [Mmu.moveRegionGo]
    split
    · split
      · intro h; exact h
      · split
        · intro h; exact h
        · split
          · intro h
            exact removeRange_hasEntry_mono _ _ _ _ h
          · intro h
            exact removeRange_hasEntry_mono _ _ _ _ (ih _ _ _ _ _ h)
    · intro h; exact h

/-- Helper: when the loop of move_region_len succeeds on a range of more
    than one byte, every TLB entry overlapping the range has been removed:
    each pass clears the full range of the mapping it relocates, and on
    success those ranges cover the queried range. -/
theorem moveRegionGo_tlb_removes : ∀ (fuel : Nat) (m : Mmu) (o : Int) (s e : Nat),
    (Mmu.moveRegionGo fuel m o s e).1 = Except.ok () → s < e →
    ∀ a, pagesOverlap a s (e - s + 1) →
    ¬ (((Mmu.moveRegionGo fuel m o s e).2).tlb).hasEntry a := by
  intro fuel
  induction fuel with
  | zero =>
    intro m o s e h _
    exact absurd h (by simp [Mmu.moveRegionGo])
  | succ f ih =>
    intro m o s e
    simp only [Mmu.moveRegionGo]
    split
    · split
      · intro h _
        exact absurd h (by simp)
      · split
        · intro h _
          exact absurd h (by simp)
        · split
          · intro h _
            exact absurd h (by simp)
          · intro h hse a hov hc
            rename_i hse1 xrl v os oe mapping1 hrl hoe xin mapping2 hins
            by_cases hcase : pagesOverlap a os (oe - os + 1)
            · have h2 := moveRegionGo_tlb_mono f _ o s os a hc
              exact removeRange_not_hasEntry m.tlb os (oe - os + 1) a hcase h2
            · have hso : s < os ∧ pagesOverlap a s (os - s + 1) := by
                unfold pagesOverlap PAGE_SIZE at hov hcase ⊢
                omega
              exact (ih _ _ _ _ h hso.1 a hso.2) hc
    · intro h hse
      rename_i hns
      exact absurd hse hns

/-- Helper: unmap_memory_len past its guards sets mapping_changed, leaves
    the I/O cache alone, and clears the TLB entries overlapping every
    Physical segment of the walked range. -/
theorem unmapMemoryLen_effects (m : Mmu) (s l : Nat) (hl : l ≠ 0)
    (he : checkedAdd s (l - 1) = some (s + (l - 1))) :
    (m.unmapMemoryLen s l).2.mappingChanged = true ∧
    (m.unmapMemoryLen s l).2.lastIoHandler = m.lastIoHandler ∧
    (∀ s1 e1 pm, (s1, e1, some (MemoryMapping.Physical pm)) ∈
        m.mapping.overlappingSegments s (s + (l - 1)) →
     ∀ a, pagesOverlap a s1 (e1 - s1 + 1) →
       ¬ ((m.unmapMemoryLen s l).2.tlb).hasEntry a) := by
  unfold Mmu.unmapMemoryLen
  rw [if_neg hl, he]
  dsimp only
  rcases hW : m.mapping.overlappingMut s (s + (l - 1)) (m.tlb, m.physical, false) unmapSegF
    with ⟨err, mapping1, tlb1, phys1, incomplete⟩
  dsimp only
  refine ⟨rfl, rfl, ?_⟩
  intro s1 e1 pm hmem a hov hc
  have hwalk : (overMutGo unmapSegF (m.mapping.overlappingSegments s (s + (l - 1)))
      (m.tlb, m.physical, false)).1 = none :=
    overMutGo_err_free unmapSegF unmapSegF_ok _ _
  have hW3 : (overMutGo unmapSegF (m.mapping.overlappingSegments s (s + (l - 1)))
      (m.tlb, m.physical, false)).2.2.1 = tlb1 := congrArg (fun q => q.2.2.1) hW
  have hrm := overMutGo_tlb_removes (fun q => q.1) unmapSegF
      (fun w => ∃ pm0, w = some (MemoryMapping.Physical pm0))
      (fun st s0 len0 v0 a0 h0 => unmapSegF_tlb_mono st s0 len0 v0 a0 h0)
      (fun st s0 len0 v0 a0 hq hov0 => by
        obtain ⟨pm0, rfl⟩ := hq
        exact unmapSegF_tlb_removes st s0 len0 pm0 a0 hov0)
      (m.mapping.overlappingSegments s (s + (l - 1))) (m.tlb, m.physical, false)
      hwalk s1 e1 _ hmem ⟨pm, rfl⟩ a hov
  dsimp only at hrm
  rw [hW3] at hrm
  exact hrm hc

/-- Helper: update_perm past its guards sets mapping_changed and leaves
    the I/O cache alone; on success it has cleared the TLB entries
    overlapping every Physical segment of the walked range. -/
theorem updatePerm_effects (m : Mmu) (a k p : Nat)
    (he : checkedAdd a k = some (a + k)) :
    (m.updatePerm a (Nat.succ k) p).2.mappingChanged = true ∧
    (m.updatePerm a (Nat.succ k) p).2.lastIoHandler = m.lastIoHandler ∧
    ((m.updatePerm a (Nat.succ k) p).1 = Except.ok () →
     ∀ s1 e1 pm, (s1, e1, some (MemoryMapping.Physical pm)) ∈
        m.mapping.overlappingSegments a (a + k) →
     ∀ x, pagesOverlap x s1 (e1 - s1 + 1) →
       ¬ ((m.updatePerm a (Nat.succ k) p).2.tlb).hasEntry x) := by
  unfold Mmu.updatePerm
  dsimp only
  rw [he]
  dsimp only
  rcases hW : m.mapping.overlappingMut a (a + k) (m.tlb, m.physical)
      (updatePermSegF (p ||| Perm.MAP |||
        (if m.trackUninitialized then Perm.NONE else Perm.INIT)))
    with ⟨err, mapping1, tlb1, phys1⟩
  dsimp only
  refine ⟨rfl, rfl, ?_⟩
  intro hok s1 e1 pm hmem x hov hc
  have herr : err = none := by
    rcases err with _ | er
    · rfl
    · exact Except.noConfusion hok
  subst herr
  have hwalk : (overMutGo (updatePermSegF (p ||| Perm.MAP |||
      (if m.trackUninitialized then Perm.NONE else Perm.INIT)))
      (m.mapping.overlappingSegments a (a + k)) (m.tlb, m.physical)).1 = none :=
    congrArg (fun q => q.1) hW
  have hW3 : (overMutGo (updatePermSegF (p ||| Perm.MAP |||
      (if m.trackUninitialized then Perm.NONE else Perm.INIT)))
      (m.mapping.overlappingSegments a (a + k)) (m.tlb, m.physical)).2.2.1 = tlb1 :=
    congrArg (fun q => q.2.2.1) hW
  have hrm := overMutGo_tlb_removes (fun q => q.1)
      (updatePermSegF (p ||| Perm.MAP |||
        (if m.trackUninitialized then Perm.NONE else Perm.INIT)))
      (fun w => ∃ pm0, w = some (MemoryMapping.Physical pm0))
      (fun st s0 len0 v0 a0 h0 => updatePermSegF_tlb_mono _ st s0 len0 v0 a0 h0)
      (fun st s0 len0 v0 a0 hq hov0 => by
        obtain ⟨pm0, rfl⟩ := hq
        exact updatePermSegF_tlb_removes _ st s0 len0 pm0 a0 hov0)
      (m.mapping.overlappingSegments a (a + k)) (m.tlb, m.physical)
      hwalk s1 e1 _ hmem ⟨pm, rfl⟩ x hov
  dsimp only at hrm
  rw [hW3] at hrm
  exact hrm hc

/-- Helper: a successful fill_mem on a nonempty range has cleared the TLB
    entries overlapping every Physical segment of the walked range. -/
theorem fillMem_tlb (m : Mmu) (a k v : Nat)
    (he : checkedAdd a k = some (a + k)) :
    (m.fillMem a (Nat.succ k) v).1 = Except.ok () →
    ∀ s1 e1 pm, (s1, e1, some (MemoryMapping.Physical pm)) ∈
        m.mapping.overlappingSegments a (a + k) →
    ∀ x, pagesOverlap x s1 (e1 - s1 + 1) →
      ¬ ((m.fillMem a (Nat.succ k) v).2.tlb).hasEntry x := by
  unfold Mmu.fillMem
  dsimp only
  rw [he]
  dsimp only
  rcases hW : m.mapping.overlappingMut a (a + k) (m.tlb, m.physical)
      (fillMemSegF v m.detectSelfModifyingCode)
    with ⟨err, mapping1, tlb1, phys1⟩
  dsimp only
  intro hok s1 e1 pm hmem x hov hc
  have herr : err = none := by
    rcases err with _ | er
    · rfl
    · exact Except.noConfusion hok
  subst herr
  have hwalk : (overMutGo (fillMemSegF v m.detectSelfModifyingCode)
      (m.mapping.overlappingSegments a (a + k)) (m.tlb, m.physical)).1 = none :=
    congrArg (fun q => q.1) hW
  have hW3 : (overMutGo (fillMemSegF v m.detectSelfModifyingCode)
      (m.mapping.overlappingSegments a (a + k)) (m.tlb, m.physical)).2.2.1 = tlb1 :=
    congrArg (fun q => q.2.2.1) hW
  have hrm := overMutGo_tlb_removes (fun q => q.1)
      (fillMemSegF v m.detectSelfModifyingCode)
      (fun w => ∃ pm0, w = some (MemoryMapping.Physical pm0))
      (fun st s0 len0 v0 a0 h0 => fillMemSegF_tlb_mono _ _ st s0 len0 v0 a0 h0)
      (fun st s0 len0 v0 a0 hq hov0 => by
        obtain ⟨pm0, rfl⟩ := hq
        exact fillMemSegF_tlb_removes _ _ st s0 len0 pm0 a0 hov0)
      (m.mapping.overlappingSegments a (a + k)) (m.tlb, m.physical)
      hwalk s1 e1 _ hmem ⟨pm, rfl⟩ x hov
  dsimp only at hrm
  rw [hW3] at hrm
  exact hrm hc

/-- C4 amended: map_memory_len on success removes the TLB entries of the
    range, sets mapping_changed and invalidates the I/O cache.
    unmap_memory_len and update_perm, once past their length and overflow
    guards (update_perm additionally on success), remove the TLB entries
    overlapping every Physical segment of the walked range, set
    mapping_changed, and leave the I/O cache unchanged.  fill_mem leaves
    mapping_changed and the I/O cache unchanged and, on success over a
    nonempty range, removes the TLB entries overlapping every Physical
    segment of the walked range.  move_region_len leaves mapping_changed
    unchanged and, when it succeeds on a range of at least two bytes,
    removes every TLB entry overlapping the range and invalidates the
    I/O cache. -/
theorem c4_mapping_ops_side_effects :
    (∀ (m : Mmu) (s l : Nat) (mp : MemoryMapping),
      (m.mapMemoryLen s l mp).1 = true →
      (m.mapMemoryLen s l mp).2.mappingChanged = true ∧
      (m.mapMemoryLen s l mp).2.lastIoHandler = none ∧
      (m.mapMemoryLen s l mp).2.tlb = m.tlb.removeRange s l) ∧
    (∀ (m : Mmu) (s l : Nat), l ≠ 0 → checkedAdd s (l - 1) ≠ none →
      (m.unmapMemoryLen s l).2.mappingChanged = true ∧
      (m.unmapMemoryLen s l).2.lastIoHandler = m.lastIoHandler ∧
      (∀ s1 e1 pm, (s1, e1, some (MemoryMapping.Physical pm)) ∈
          m.mapping.overlappingSegments s (s + (l - 1)) →
       ∀ a, pagesOverlap a s1 (e1 - s1 + 1) →
         ¬ ((m.unmapMemoryLen s l).2.tlb).hasEntry a)) ∧
    (∀ (m : Mmu) (a c p : Nat), c ≠ 0 → checkedAdd a (c - 1) ≠ none →
      (m.updatePerm a c p).2.mappingChanged = true ∧
      (m.updatePerm a c p).2.lastIoHandler = m.lastIoHandler ∧
      ((m.updatePerm a c p).1 = Except.ok () →
       ∀ s1 e1 pm, (s1, e1, some (MemoryMapping.Physical pm)) ∈
          m.mapping.overlappingSegments a (a + (c - 1)) →
       ∀ x, pagesOverlap x s1 (e1 - s1 + 1) →
         ¬ ((m.updatePerm a c p).2.tlb).hasEntry x)) ∧
    (∀ (m : Mmu) (a c v : Nat),
      (m.fillMem a c v).2.mappingChanged = m.mappingChanged ∧
      (m.fillMem a c v).2.lastIoHandler = m.lastIoHandler ∧
      (c ≠ 0 → (m.fillMem a c v).1 = Except.ok () →
       ∀ s1 e1 pm, (s1, e1, some (MemoryMapping.Physical pm)) ∈
          m.mapping.overlappingSegments a (a + (c - 1)) →
       ∀ x, pagesOverlap x s1 (e1 - s1 + 1) →
         ¬ ((m.fillMem a c v).2.tlb).hasEntry x)) ∧
    (∀ (m : Mmu) (s l d : Nat),
      (m.moveRegionLen s l d).2.mappingChanged = m.mappingChanged ∧
      ((m.moveRegionLen s l d).1 = Except.ok () → 2 ≤ l →
        (m.moveRegionLen s l d).2.lastIoHandler = none ∧
        ∀ a, pagesOverlap a s l →
          ¬ ((m.moveRegionLen s l d).2.tlb).hasEntry a)) := by
  refine ⟨?_, ?_, ?_, ?_, ?_⟩
  · intro m s l mp
    unfold Mmu.mapMemoryLen
    split
    · simp
    · split
      · simp
      · split
        · simp
        · intro _
          exact ⟨rfl, rfl, rfl⟩
  · intro m s l hl ha
    have he : checkedAdd s (l - 1) = some (s + (l - 1)) := by
      rcases hx : checkedAdd s (l - 1) with _ | e
      · exact absurd hx ha
      · have h2 : e = s + (l - 1) := by
          unfold checkedAdd at hx
          split at hx
          · exact (Option.some.inj hx).symm
          · cases hx
        rw [h2]
    exact unmapMemoryLen_effects m s l hl he
  · intro m a c p hc ha
    obtain ⟨k, rfl⟩ := Nat.exists_eq_succ_of_ne_zero hc
    simp only [Nat.succ_sub_one] at ha
    have he : checkedAdd a k = some (a + k) := by
      rcases hx : checkedAdd a k with _ | e
      · exact absurd hx ha
      · have h2 : e = a + k := by
          unfold checkedAdd at hx
          split at hx
          · exact (Option.some.inj hx).symm
          · cases hx
        rw [h2]
    exact updatePerm_effects m a k p he
  · intro m a c v
    refine ⟨?_, ?_, ?_⟩
    · unfold Mmu.fillMem
      split
      · rfl
      · split
        · rfl
        · rfl
    · unfold Mmu.fillMem
      split
      · rfl
      · split
        · rfl
        · rfl
    · intro hc hok
      obtain ⟨k, rfl⟩ := Nat.exists_eq_succ_of_ne_zero hc
      rcases hx : checkedAdd a k with _ | e
      · exfalso
        unfold Mmu.fillMem at hok
        dsimp only at hok
        rw [hx] at hok
        exact Except.noConfusion hok
      · have h2 : e = a + k := by
          unfold checkedAdd at hx
          split at hx
          · exact (Option.some.inj hx).symm
          · cases hx
        subst h2
        exact fillMem_tlb m a k v hx hok
  · intro m s l d
    refine ⟨?_, ?_⟩
    · unfold Mmu.moveRegionLen
      split
      · rfl
      · split
        · rfl
        · exact moveRegionGo_mappingChanged _ _ _ _ _
    · unfold Mmu.moveRegionLen
      split
      · intro h _
        exact absurd h (by simp)
      · split
        · intro h _
          exact absurd h (by simp)
        · rename_i k e heqa
          intro h hl
          have hse : s < e := by
            unfold checkedAdd at heqa
            split at heqa
            · cases heqa
              omega
            · cases heqa
          refine ⟨moveRegionGo_lastIo _ _ _ _ _ h hse, ?_⟩
          intro a hov
          have hov2 : pagesOverlap a s (e - s + 1) := by
            unfold checkedAdd at heqa
            split at heqa
            · cases heqa
              unfold pagesOverlap at hov ⊢
              omega
            · cases heqa
          exact moveRegionGo_tlb_removes _ _ _ _ _ h hse a hov2

/-- C4 witness: a successful map_memory_len on the empty state exhibits all
    three side effects. -/
theorem c4_witness :
    (mmuBase.mapMemoryLen 0x1000 0x1000 (MemoryMapping.Unallocated ⟨0, 3⟩)).2.mappingChanged
      = true ∧
    (mmuBase.mapMemoryLen 0x1000 0x1000 (MemoryMapping.Unallocated ⟨0, 3⟩)).2.lastIoHandler
      = none ∧
    (mmuBase.mapMemoryLen 0x1000 0x1000 (MemoryMapping.Unallocated ⟨0, 3⟩)).2.tlb
      = mmuBase.tlb.removeRange 0x1000 0x1000 :=
  c4_mapping_ops_side_effects.1 mmuBase 0x1000 0x1000 (MemoryMapping.Unallocated ⟨0, 3⟩)
    (by decide)

/-- Helper: the dispatch loop short-circuits with the value of the first
    live, in-range hook whose handler returns one. -/
theorem runReadHooksGo_fst (addr n : Nat) :
    ∀ (hooks : List (HookEntry ReadHookFn)) (i : Nat) (tr : List HookEvent),
      (runReadHooksGo addr n hooks i tr).1 = firstReadHookResult hooks addr n := by
  intro hooks
  induction hooks with
  | nil => intro i tr; rfl
  | cons hk rest ih =>
    intro i tr
    rcases hh : hk.handler with _ | f <;>
      simp only [runReadHooksGo, firstReadHookResult, List.findSome?_cons, hh]
    · exact ih _ _
    · by_cases hin : hk.start ≤ addr ∧ addr < hk.stop
      · simp only [if_pos hin]
        rcases hf : f addr n with _ | v <;> simp only [hf]
        exact ih _ _
      · simp only [if_neg hin]
        exact ih _ _

/-- Helper: the dispatch loop only appends read-hook invocation events, so
    the read-after events of the trace are untouched. -/
theorem runReadHooksGo_filter (addr n : Nat) :
    ∀ (hooks : List (HookEntry ReadHookFn)) (i : Nat) (tr : List HookEvent),
      ((runReadHooksGo addr n hooks i tr).2).filter HookEvent.isReadAfter
        = tr.filter HookEvent.isReadAfter := by
  intro hooks
  induction hooks with
  | nil => intro i tr; rfl
  | cons hk rest ih =>
    intro i tr
    rcases hh : hk.handler with _ | f <;> simp only [runReadHooksGo, hh]
    · exact ih _ _
    · by_cases hin : hk.start ≤ addr ∧ addr < hk.stop
      · simp only [if_pos hin]
        rcases hf : f addr n with _ | v <;> simp only [hf]
        · rw [ih _ _]
          simp [HookEvent.isReadAfter]
        · simp [HookEvent.isReadAfter]
      · simp only [if_neg hin]
        exact ih _ _

/-- Helper: a findSome? hit comes from some member of the list. -/
theorem findSome?_mem {α β : Type} (f : α → Option β) :
    ∀ (l : List α) (b : β), l.findSome? f = some b → ∃ a ∈ l, f a = some b := by
  intro l
  induction l with
  | nil => intro b h; cases h
  | cons a rest ih =>
    intro b h
    rw [List.findSome?_cons] at h
    rcases hf : f a with _ | v
    · rw [hf] at h
      obtain ⟨x, hx, hfx⟩ := ih b h
      exact ⟨x, List.mem_cons_of_mem a hx, hfx⟩
    · rw [hf] at h
      cases h
      exact ⟨a, List.mem_cons_self a rest, hf⟩

/-- C3 amended (for widths up to the eight bytes of the u64 handler
    result; the sixteen-byte case panics, see the counterexample): on an
    aligned slow-path read with a nonzero requested permission, when the
    dispatch loop finds a live hook containing addr whose handler returns
    v, the read returns the n low little-endian bytes of v; the mapping,
    the physical pool, the TLB, the miss counter and the I/O cache are
    untouched, no read-after hook fires, and v is the value of a live
    in-range hook. -/
theorem c3_read_hook_short_circuit (m : Mmu) (addr n p v : Nat)
    (hn : n ≤ 8) (ha : addr % n = 0) (hp : p ≠ Perm.NONE)
    (hv : firstReadHookResult m.readHooks.hooks addr n = some v) :
    (m.readTlbMiss addr n p).1 = Except.ok (leBytes v n) ∧
    (m.readTlbMiss addr n p).2.mapping = m.mapping ∧
    (m.readTlbMiss addr n p).2.physical = m.physical ∧
    (m.readTlbMiss addr n p).2.tlb = m.tlb ∧
    (m.readTlbMiss addr n p).2.tlbMissCount = m.tlbMissCount ∧
    (m.readTlbMiss addr n p).2.lastIoHandler = m.lastIoHandler ∧
    (m.readTlbMiss addr n p).2.hookTrace.filter HookEvent.isReadAfter
      = m.hookTrace.filter HookEvent.isReadAfter ∧
    (∃ hk ∈ m.readHooks.hooks, ∃ f, hk.handler = some f ∧
      hk.start ≤ addr ∧ addr < hk.stop ∧ f addr n = some v) := by
  have hne : m.readHooks.hooks.isEmpty = false := by
    cases hh : m.readHooks.hooks with
    | nil => rw [hh] at hv; cases hv
    | cons a l => rfl
  have h1 : (runReadHooksGo addr n m.readHooks.hooks 0 []).1 = some v :=
    (runReadHooksGo_fst addr n m.readHooks.hooks 0 []).trans hv
  have key : m.readTlbMiss addr n p =
      (Except.ok (leBytes v n),
       { m with hookTrace :=
           m.hookTrace ++ (runReadHooksGo addr n m.readHooks.hooks 0 []).2 }) := by
    unfold Mmu.readTlbMiss
    rw [if_neg (fun hcon => hcon ha)]
    split
    · rename_i v' m1 heq
      unfold Mmu.tryReadHooks at heq
      rw [if_pos ⟨hp, hne⟩, h1] at heq
      rw [Prod.mk.injEq] at heq
      obtain ⟨hv', hm1⟩ := heq
      obtain rfl := Option.some.inj hv'
      rw [if_pos hn, ← hm1]
    · rename_i m1 heq
      unfold Mmu.tryReadHooks at heq
      rw [if_pos ⟨hp, hne⟩, h1] at heq
      rw [Prod.mk.injEq] at heq
      cases heq.1
  refine ⟨by rw [key], by rw [key], by rw [key], by rw [key], by rw [key], by rw [key],
          ?_, ?_⟩
  · rw [key]
    show (m.hookTrace ++ _).filter _ = _
    rw [List.filter_append, runReadHooksGo_filter]
    simp
  · obtain ⟨hk, hmem, hf⟩ := findSome?_mem _ m.readHooks.hooks v hv
    rcases hh : hk.handler with _ | f
    · rw [hh] at hf
      simp at hf
    · rw [hh] at hf
      have hf' : (if hk.start ≤ addr ∧ addr < hk.stop then f addr n else none) = some v := hf
      by_cases hin : hk.start ≤ addr ∧ addr < hk.stop
      · rw [if_pos hin] at hf'
        exact ⟨hk, hmem, f, hh, hin.1, hin.2, hf'⟩
      · rw [if_neg hin] at hf'
        cases hf'

/-- C3 witness: a two-byte hooked read at 0 returns the two low bytes of
    0xAB, touches neither the mapping nor the pool nor the TLB, and fires
    no read-after hook. -/
theorem c3_witness :
    (mmuC3.readTlbMiss 0 2 Perm.READ).1 = Except.ok (leBytes 0xAB 2) ∧
    (mmuC3.readTlbMiss 0 2 Perm.READ).2.mapping = mmuC3.mapping ∧
    (mmuC3.readTlbMiss 0 2 Perm.READ).2.physical = mmuC3.physical ∧
    (mmuC3.readTlbMiss 0 2 Perm.READ).2.tlb = mmuC3.tlb ∧
    (mmuC3.readTlbMiss 0 2 Perm.READ).2.tlbMissCount = mmuC3.tlbMissCount ∧
    (mmuC3.readTlbMiss 0 2 Perm.READ).2.lastIoHandler = mmuC3.lastIoHandler ∧
    (mmuC3.readTlbMiss 0 2 Perm.READ).2.hookTrace.filter HookEvent.isReadAfter
      = mmuC3.hookTrace.filter HookEvent.isReadAfter :=
  match c3_read_hook_short_circuit mmuC3 0 2 Perm.READ 0xAB (by decide) (by decide)
    (by decide) rfl with
  | ⟨h1, h2, h3, h4, h5, h6, h7, _⟩ => ⟨h1, h2, h3, h4, h5, h6, h7⟩

/-- C6 amended: the byte-wise retry of the multi-byte slow path fires
    exactly when the access reached through the mapping entry found at
    addr yields a normal Unmapped result, and for both reads and writes.
    Conjunct 1: an aligned four-byte read whose address lies in a
    two-byte Physical mapping adjoining an Unallocated mapping fails its
    page-level permission check with Unmapped, is retried byte-wise, and
    returns the concatenation of the four one-byte reads.  Conjunct 2:
    the aligned four-byte write crossing the same kind of boundary
    succeeds byte-wise and the written bytes read back.  Conjuncts 3-4:
    in general, whenever the mapping-mediated access of a multi-byte
    read or write returns a normal Unmapped error, the slow path equals
    the byte-wise fallback on the post-access state (for reads, with no
    read hook installed, whose short-circuit would preempt the access).
    Conjuncts 5-6: when no mapping entry contains addr itself, the
    early Unmapped error propagates out of read_tlb_miss and
    write_tlb_miss directly (the question-mark operator returns before
    the retry check), no byte-wise retry happens, and the only state
    change is the miss counter. -/
theorem c6_retry_byte_wise :
    ((mmuC6x.readTlbMiss 0x1000 4 Perm.READ).1 = Except.ok [0xAA, 0xBB, 0xCC, 0xCC]) ∧
    ((mmuC6w.writeTlbMiss 0x1000 [1, 2, 3, 4] Perm.WRITE).1 = Except.ok () ∧
     (((mmuC6w.writeTlbMiss 0x1000 [1, 2, 3, 4] Perm.WRITE).2).readTlbMiss
        0x1000 4 Perm.READ).1 = Except.ok [1, 2, 3, 4]) ∧
    (∀ (m m2 : Mmu) (addr n p : Nat), 2 ≤ n → addr % n = 0 →
      m.readHooks.hooks = [] →
      m.readAccess addr n p =
        (SlowResult.normal (Except.error (OpError.mem MemError.Unmapped)), m2) →
      m.readTlbMiss addr n p = m2.readUnalignedN addr n p) ∧
    (∀ (m m2 : Mmu) (addr p : Nat) (v : List Nat), 2 ≤ v.length →
      addr % v.length = 0 →
      m.writeViaMapping addr v p =
        (SlowResult.normal (Except.error (OpError.mem MemError.Unmapped)), m2) →
      m.writeTlbMiss addr v p = m2.writeUnalignedN addr v p) ∧
    (∀ (m : Mmu) (addr n p : Nat), 2 ≤ n → addr % n = 0 →
      m.readHooks.hooks = [] → m.lastIoHandler = none →
      m.mapping.getWithRange addr = none →
      m.readTlbMiss addr n p =
        (Except.error (OpError.mem MemError.Unmapped),
         { m with tlbMissCount := m.tlbMissCount + 1 })) ∧
    (∀ (m : Mmu) (addr p : Nat) (v : List Nat), 2 ≤ v.length →
      addr % v.length = 0 →
      m.mapping.getWithRange addr = none →
      m.writeTlbMiss addr v p =
        (Except.error (OpError.mem MemError.Unmapped),
         { m with tlbMissCount := m.tlbMissCount + 1 })) := by
  refine ⟨by decide, ⟨by decide, by decide⟩, ?_, ?_, ?_, ?_⟩
  · intro m m2 addr n p hn ha hhooks hacc
    have htry : m.tryReadHooks addr n p = (none, m) := by
      unfold Mmu.tryReadHooks
      rw [if_neg]
      intro hcon
      rw [hhooks] at hcon
      exact absurd hcon.2 (by simp)
    unfold Mmu.readTlbMiss
    rw [if_neg (fun hcon => hcon ha)]
    simp only [htry, hacc]
    have hne : n ≠ 1 := by omega
    rw [if_pos ⟨hne, trivial⟩]
  · intro m m2 addr p v hn ha hacc
    unfold Mmu.writeTlbMiss
    rw [if_neg (fun hcon => hcon ha)]
    simp only [hacc]
    have hne : v.length ≠ 1 := by omega
    rw [if_pos ⟨hne, trivial⟩]
  · intro m addr n p hn ha hhooks hio hmap
    have htry : m.tryReadHooks addr n p = (none, m) := by
      unfold Mmu.tryReadHooks
      rw [if_neg]
      intro hcon
      rw [hhooks] at hcon
      exact absurd hcon.2 (by simp)
    have hacc : m.readAccess addr n p =
        (SlowResult.early (OpError.mem MemError.Unmapped),
         { m with tlbMissCount := m.tlbMissCount + 1 }) := by
      simp only [Mmu.readAccess, hio, Mmu.readViaMapping, hmap]
    unfold Mmu.readTlbMiss
    rw [if_neg (fun hcon => hcon ha)]
    simp only [htry, hacc]
  · intro m addr p v hn ha hmap
    have hacc : m.writeViaMapping addr v p =
        (SlowResult.early (OpError.mem MemError.Unmapped),
         { m with tlbMissCount := m.tlbMissCount + 1 }) := by
      unfold Mmu.writeViaMapping RangeMap.get?
      dsimp only
      rw [hmap]
      rfl
    unfold Mmu.writeTlbMiss
    rw [if_neg (fun hcon => hcon ha)]
    simp only [hacc]

/-- C6 witness: the no-retry conclusions at a concrete unmapped address,
    for a two-byte read and a two-byte write. -/
theorem c6_witness :
    mmuBase.readTlbMiss 0 2 1 =
      (Except.error (OpError.mem MemError.Unmapped),
       { mmuBase with tlbMissCount := mmuBase.tlbMissCount + 1 }) ∧
    mmuBase.writeTlbMiss 0 [0x11, 0x22] 2 =
      (Except.error (OpError.mem MemError.Unmapped),
       { mmuBase with tlbMissCount := mmuBase.tlbMissCount + 1 }) :=
  ⟨c6_retry_byte_wise.2.2.2.2.1 mmuBase 0 2 1 (by decide) (by decide) rfl rfl rfl,
   c6_retry_byte_wise.2.2.2.2.2 mmuBase 0 2 [0x11, 0x22] (by decide) (by decide) rfl⟩

theorem pageBase_le (addr : Nat) : pageBase addr ≤ addr := by
  unfold pageBase
  omega

theorem le_pageBase_add (addr : Nat) : addr ≤ pageBase addr + (PAGE_SIZE - 1) := by
  unfold pageBase PAGE_SIZE
  omega

theorem pageBase_add_lt (addr : Nat) (h : addr < U64_SIZE) :
    pageBase addr + (PAGE_SIZE - 1) < U64_SIZE := by
  unfold pageBase PAGE_SIZE U64_SIZE at *
  omega

/-- Helper: the zero-page scan accepts a list of segments that all carry
    the same zero-filled Unallocated entry. -/
theorem zeroScan_const (P : Nat) :
    ∀ (segs : List (Nat × Nat × Option MemoryMapping)),
      (∀ seg ∈ segs, seg.2.2 = some (MemoryMapping.Unallocated ⟨0, P⟩)) →
      zeroScan segs (some P) = some P := by
  intro segs
  induction segs with
  | nil => intro _; rfl
  | cons seg rest ih =>
    intro h
    unfold zeroScan
    rw [h seg (List.mem_cons_self seg rest)]
    simp [ih fun s hs => h s (List.mem_cons_of_mem seg hs)]

theorem zeroScan_all (P : Nat) (segs : List (Nat × Nat × Option MemoryMapping))
    (hne : segs ≠ [])
    (h : ∀ seg ∈ segs, seg.2.2 = some (MemoryMapping.Unallocated ⟨0, P⟩)) :
    zeroScan segs none = some P := by
  cases segs with
  | nil => exact absurd rfl hne
  | cons seg rest =>
    unfold zeroScan
    rw [h seg (List.mem_cons_self seg rest)]
    simp [zeroScan_const P rest fun s hs => h s (List.mem_cons_of_mem seg hs)]

/-- Helper: the emitted overlap segments tile the query range, so every
    address of the range is covered by some segment. -/
theorem segsGo_covers {α : Type} (qe : Nat) :
    ∀ (l : List (Nat × Nat × α)) (cursor a : Nat), cursor ≤ a → a ≤ qe →
      ∃ s e v, (s, e, v) ∈ segsGo qe l cursor ∧ s ≤ a ∧ a ≤ e := by
  intro l
  induction l with
  | nil =>
    intro cursor a h1 h2
    refine ⟨cursor, qe, none, ?_, h1, h2⟩
    unfold segsGo
    rw [if_pos (le_trans h1 h2)]
    exact List.mem_singleton.mpr rfl
  | cons r rest ih =>
    intro cursor a h1 h2
    rcases r with ⟨s0, e0, v0⟩
    unfold segsGo
    by_cases hov : s0 ≤ qe ∧ cursor ≤ e0 ∧ cursor ≤ qe
    · rw [if_pos hov]
      dsimp only
      by_cases hlt : a < max s0 cursor
      · refine ⟨cursor, max s0 cursor - 1, none, ?_, h1, by omega⟩
        rw [if_pos (by omega : cursor < max s0 cursor)]
        exact List.mem_append_left _ (List.mem_singleton.mpr rfl)
      · by_cases hle : a ≤ min e0 qe
        · refine ⟨max s0 cursor, min e0 qe, some v0, ?_, by omega, hle⟩
          exact List.mem_append_right _ (List.mem_cons_self _ _)
        · rw [if_pos (by omega : min e0 qe + 1 ≤ qe)]
          obtain ⟨s, e, v, hmem, hs, he⟩ := ih (min e0 qe + 1) a (by omega) h2
          exact ⟨s, e, v, List.mem_append_right _ (List.mem_cons_of_mem _ hmem), hs, he⟩
    · rw [if_neg hov]
      by_cases he0 : e0 < cursor
      · rw [if_pos he0]
        exact ih cursor a h1 h2
      · rw [if_neg he0, if_pos (le_trans h1 h2)]
        exact ⟨cursor, qe, none, List.mem_singleton.mpr rfl, h1, h2⟩

/-- Helper: the zero-page rewrite maps every segment to the zero-page
    entry. -/
theorem overMutGo_zeroMap (zp ps : Nat) :
    ∀ (segs : List (Nat × Nat × Option MemoryMapping)) (st : Unit),
      (overMutGo (zeroMapF zp ps) segs st).2.1
        = segs.map (fun r => (r.1, r.2.1, some (MemoryMapping.Physical ⟨zp, ps⟩))) := by
  intro segs
  induction segs with
  | nil => intro st; rfl
  | cons r rest ih =>
    intro st
    rcases r with ⟨s, e, v⟩
    simp only [overMutGo, zeroMapF, List.map_cons, ih]

/-- Helper: parts of entries below the query range never contain an
    address inside it. -/
theorem lowParts_not_covering (m : RangeMap MemoryMapping) (qs addr : Nat)
    (hqs : qs ≤ addr) :
    ∀ r ∈ m.lowParts qs, (decide (r.1 ≤ addr ∧ addr ≤ r.2.1)) = false := by
  intro r hr
  rw [RangeMap.lowParts, List.mem_filterMap] at hr
  obtain ⟨x, hx, hfx⟩ := hr
  by_cases hlt : x.1 < qs
  · rw [if_pos hlt] at hfx
    cases hfx
    simp only [decide_eq_false_iff_not]
    intro hcon
    omega
  · rw [if_neg hlt] at hfx
    cases hfx

/-- Helper: find? skips a first part on which the predicate fails. -/
theorem find?_skip_false {α : Type} (p : α → Bool) :
    ∀ (l1 l2 : List α), (∀ x ∈ l1, p x = false) → (l1 ++ l2).find? p = l2.find? p := by
  intro l1
  induction l1 with
  | nil => intro l2 _; rfl
  | cons a t ih =>
    intro l2 h
    have ha := h a (List.mem_cons_self a t)
    rw [List.cons_append, List.find?_cons, ha]
    exact ih l2 fun x hx => h x (List.mem_cons_of_mem a hx)

theorem find?_append_left_of_some {α : Type} (p : α → Bool) (l1 l2 : List α) (y : α)
    (h : l1.find? p = some y) : (l1 ++ l2).find? p = some y := by
  rw [List.find?_append, h]
  rfl

/-- Helper: a lookup in the rebuilt map hits the common value of the new
    segments when one of them covers the address. -/
theorem applySegments_get?_const (m : RangeMap MemoryMapping) (qs qe addr : Nat)
    (w : MemoryMapping) (segs : List (Nat × Nat × Option MemoryMapping))
    (hqs : qs ≤ addr)
    (hall : ∀ r ∈ segs, r.2.2 = some w)
    (hcov : ∃ r ∈ segs, r.1 ≤ addr ∧ addr ≤ r.2.1) :
    (m.applySegments qs qe segs).get? addr = some w := by
  unfold RangeMap.applySegments RangeMap.get? RangeMap.getWithRange
  rw [List.append_assoc]
  rw [find?_skip_false _ _ _ (lowParts_not_covering m qs addr hqs)]
  have hmid : ∃ x ∈ segs.filterMap (fun r => r.2.2.map fun v => (r.1, r.2.1, v)),
      (decide (x.1 ≤ addr ∧ addr ≤ x.2.1)) = true := by
    obtain ⟨r, hr, hb⟩ := hcov
    refine ⟨(r.1, r.2.1, w), ?_, decide_eq_true hb⟩
    rw [List.mem_filterMap]
    exact ⟨r, hr, by rw [hall r hr]; rfl⟩
  rcases hfind : (segs.filterMap (fun r => r.2.2.map fun v => (r.1, r.2.1, v))).find?
      (fun r => decide (r.1 ≤ addr ∧ addr ≤ r.2.1)) with _ | y
  · obtain ⟨x, hx, hpx⟩ := hmid
    rw [List.find?_eq_none] at hfind
    exact absurd hpx (by simpa using hfind x hx)
  · rw [find?_append_left_of_some _ _ _ _ hfind]
    have hymem := List.mem_of_find?_eq_some hfind
    rw [List.mem_filterMap] at hymem
    obtain ⟨r, hr, hfr⟩ := hymem
    rw [hall r hr] at hfr
    cases hfr
    rfl

/-- C7: page materialisation and the zero-page optimisation.  Read side:
    when every segment of the target page is a zero-filled Unallocated
    entry of one permission P and the pool designates a zero page for P,
    init_physical for a read returns that zero page, allocates nothing,
    leaves the TLB alone, and maps the address to the zero page.  Write
    side: init_physical for a write never consults the zero-page table: it
    returns the index of a freshly allocated page exactly when the pool is
    below capacity (OutOfMemory otherwise), and the returned index is
    never a designated zero page. -/
theorem c7_init_physical_zero_page (m : Mmu) (addr zp P : Nat)
    (haddr : addr < U64_SIZE)
    (hsegs : ∀ seg ∈ m.mapping.overlappingSegments (pageBase addr)
        (pageBase addr + (PAGE_SIZE - 1)),
      seg.2.2 = some (MemoryMapping.Unallocated ⟨0, P⟩))
    (hne : m.mapping.overlappingSegments (pageBase addr)
        (pageBase addr + (PAGE_SIZE - 1)) ≠ [])
    (hzp : m.physical.getZeroPage P = some zp) :
    ((m.initPhysical addr false).1 = some zp ∧
     (m.initPhysical addr false).2.physical = m.physical ∧
     (m.initPhysical addr false).2.tlb = m.tlb ∧
     (m.initPhysical addr false).2.mapping.get? addr
       = some (MemoryMapping.Physical ⟨zp, pageBase addr⟩)) ∧
    (∀ (m1 : Mmu) (a1 : Nat),
      (m1.initPhysical a1 true).1 =
        (if m1.physical.pages.length < m1.physical.capacity
         then some m1.physical.pages.length else none) ∧
      (∀ z ∈ m1.physical.zeroPages, z.2 < m1.physical.pages.length →
        (m1.initPhysical a1 true).1 ≠ some z.2)) := by
  have hz : m.getZeroPageFor (pageBase addr) PAGE_SIZE = some zp := by
    unfold Mmu.getZeroPageFor
    rw [show checkedAdd (pageBase addr) (PAGE_SIZE - 1)
          = some (pageBase addr + (PAGE_SIZE - 1)) from
        if_pos (pageBase_add_lt addr haddr)]
    dsimp only
    rw [zeroScan_all P _ hne hsegs]
    exact hzp
  have key : m.initPhysical addr false =
      (some zp,
       { m with mapping :=
          (m.mapping.applySegments (pageBase addr) (pageBase addr + (PAGE_SIZE - 1))
            ((m.mapping.overlappingSegments (pageBase addr)
                (pageBase addr + (PAGE_SIZE - 1))).map
              (fun r => (r.1, r.2.1,
                some (MemoryMapping.Physical ⟨zp, pageBase addr⟩))))) }) := by
    unfold Mmu.initPhysical
    dsimp only
    rw [if_pos (⟨rfl, rfl⟩ : ENABLE_ZERO_PAGE_OPTIMIZATION = true ∧ false = false), hz]
    dsimp only
    unfold RangeMap.overlappingMut
    dsimp only
    rw [overMutGo_zeroMap]
  constructor
  · refine ⟨by rw [key], by rw [key], by rw [key], ?_⟩
    rw [key]
    show (m.mapping.applySegments _ _ _).get? addr = _
    refine applySegments_get?_const _ _ _ _ _ _ (pageBase_le addr) ?_ ?_
    · intro r hr
      rw [List.mem_map] at hr
      obtain ⟨x, _, hx⟩ := hr
      rw [← hx]
    · obtain ⟨s, e, v, hmem, hs, he⟩ :=
        segsGo_covers (pageBase addr + (PAGE_SIZE - 1)) m.mapping (pageBase addr) addr
          (pageBase_le addr) (le_pageBase_add addr)
      refine ⟨(s, e, some (MemoryMapping.Physical ⟨zp, pageBase addr⟩)), ?_, hs, he⟩
      rw [List.mem_map]
      exact ⟨(s, e, v), hmem, rfl⟩
  · intro m1 a1
    have hwrite : (m1.initPhysical a1 true).1
        = (if m1.physical.pages.length < m1.physical.capacity
           then some m1.physical.pages.length else none) := by
      unfold Mmu.initPhysical PhysicalMemory.alloc
      dsimp only
      rw [if_neg (by simp : ¬(ENABLE_ZERO_PAGE_OPTIMIZATION = true ∧ true = false))]
      dsimp only
      by_cases hcap : m1.physical.pages.length < m1.physical.capacity
      · rw [if_pos hcap, if_pos hcap]
      · rw [if_neg hcap, if_neg hcap]
    constructor
    · exact hwrite
    · intro z hz1 hz2 hcon
      rw [hwrite] at hcon
      by_cases hcap : m1.physical.pages.length < m1.physical.capacity
      · rw [if_pos hcap] at hcon
        have := Option.some.inj hcon
        omega
      · rw [if_neg hcap] at hcon
        cases hcon

/-- C7 witness: on a state with a single all-zero Unallocated page mapping
    and a designated zero page of that permission, a read materialisation
    maps the zero page without allocating and a write materialisation
    allocates a fresh page. -/
theorem c7_witness :
    ((mmuC7.initPhysical 0x2010 false).1 = some 0 ∧
     (mmuC7.initPhysical 0x2010 false).2.physical = mmuC7.physical ∧
     (mmuC7.initPhysical 0x2010 false).2.tlb = mmuC7.tlb ∧
     (mmuC7.initPhysical 0x2010 false).2.mapping.get? 0x2010
       = some (MemoryMapping.Physical ⟨0, pageBase 0x2010⟩)) ∧
    (mmuC7.initPhysical 0x2010 true).1 =
      (if mmuC7.physical.pages.length < mmuC7.physical.capacity
       then some mmuC7.physical.pages.length else none) :=
  ⟨(c7_init_physical_zero_page mmuC7 0x2010 0 Perm.READ (by decide) (by decide)
      (by decide) (by decide)).1,
   ((c7_init_physical_zero_page mmuC7 0x2010 0 Perm.READ (by decide) (by decide)
      (by decide) (by decide)).2 mmuC7 0x2010).1⟩

theorem mem_insertSet (l : List Nat) (a b : Nat) :
    b ∈ insertSet l a ↔ b ∈ l ∨ b = a := by
  unfold insertSet
  by_cases h : a ∈ l
  · rw [if_pos h]
    constructor
    · exact Or.inl
    · rintro (hb | rfl)
      · exact hb
      · exact h
  · rw [if_neg h]
    simp [List.mem_append]

theorem nodup_insertSet (l : List Nat) (a : Nat) (h : l.Nodup) :
    (insertSet l a).Nodup := by
  unfold insertSet
  by_cases hm : a ∈ l
  · rw [if_pos hm]
    exact h
  · rw [if_neg hm]
    rw [List.nodup_append]
    refine ⟨h, List.nodup_singleton a, ?_⟩
    intro x hx hy
    rw [List.mem_singleton] at hy
    exact hm (hy ▸ hx)

/-- Helper: the copy-on-write step never touches the modified set. -/
theorem cowResolve_modified (m : Mmu) (i ps j : Nat) (m1 : Mmu)
    (h : m.cowResolve i ps = Except.ok (j, m1)) : m1.modified = m.modified := by
  unfold Mmu.cowResolve at h
  split at h
  · split at h
    · cases h
    · cases h
      rfl
  · cases h
    rfl

/-- Helper: the modified set after write_physical_commit is determined by
    the copy-on-write resolution and the written page's flag. -/
theorem writePhysicalCommit_modified (m : Mmu) (i ps addr : Nat) (v : List Nat)
    (p : Nat) :
    ((m.writePhysicalCommit i ps addr v p).2).modified =
      (match m.cowResolve i ps with
       | Except.error _ => m.modified
       | Except.ok (idx1, m1) =>
         if (m1.physical.get idx1).modified = false then insertSet m.modified ps
         else m.modified) := by
  unfold Mmu.writePhysicalCommit
  split
  · rfl
  · rename_i idx1 m1 heq
    have hm1 : m1.modified = m.modified := cowResolve_modified m i ps idx1 m1 heq
    dsimp only
    rw [hm1]
    split
    · rfl
    · split <;> rfl

/-- C5 per-call characterisation: the base is inserted into the modified
    set exactly when the written page's flag transitions. -/
theorem writePhysical_modified_spec (m : Mmu) (i addr : Nat) (v : List Nat)
    (p : Nat) :
    ((m.writePhysical i addr v p).2).modified =
      (match m.writeTransitionBase i addr v with
       | some b => insertSet m.modified b
       | none => m.modified) := by
  unfold Mmu.writePhysical Mmu.writeTransitionBase
  dsimp only
  by_cases hed : (m.physical.get i).executed = true ∧ m.detectSelfModifyingCode = true
  · rw [if_pos hed, if_pos hed]
    split
    · rfl
    · rw [writePhysicalCommit_modified]
      split
      · rfl
      · split <;> rfl
  · rw [if_neg hed, if_neg hed]
    rw [writePhysicalCommit_modified]
    split
    · rfl
    · split <;> rfl

/-- Helper: membership in the modified set along a run of write_physical
    calls. -/
theorem runWrites_modified (evs : List WriteCall) :
    ∀ (m : Mmu) (b : Nat),
      b ∈ (m.runWrites evs).modified ↔ b ∈ m.modified ∨ b ∈ m.transitionBases evs := by
  induction evs with
  | nil =>
    intro m b
    simp [Mmu.runWrites, Mmu.transitionBases]
  | cons c rest ih =>
    intro m b
    unfold Mmu.runWrites Mmu.transitionBases
    rw [ih]
    have hm' := writePhysical_modified_spec m c.index c.addr c.value c.perm
    rcases htr : m.writeTransitionBase c.index c.addr c.value with _ | t <;>
      rw [htr] at hm'
    · rw [hm']
      simp
    · rw [hm']
      rw [mem_insertSet]
      simp only [List.cons_append, List.nil_append, List.mem_cons]
      tauto

theorem runWrites_nodup (evs : List WriteCall) :
    ∀ (m : Mmu), m.modified.Nodup → ((m.runWrites evs).modified).Nodup := by
  induction evs with
  | nil => intro m h; exact h
  | cons c rest ih =>
    intro m h
    unfold Mmu.runWrites
    apply ih
    rw [writePhysical_modified_spec]
    rcases htr : m.writeTransitionBase c.index c.addr c.value with _ | t
    · exact h
    · exact nodup_insertSet _ _ h

/-- C5: for every write reaching write_physical, the page base is inserted
    into the modified set exactly when the written page's modified flag
    transitions from false to true (first conjunct); consequently, after a
    clear_page_modification_log, the modified set contains exactly the
    page bases whose page flag transitioned along the subsequent writes
    (second conjunct), each base at most once (third conjunct). -/
theorem c5_page_modification_log :
    (∀ (m : Mmu) (i addr : Nat) (v : List Nat) (p : Nat),
      ((m.writePhysical i addr v p).2).modified =
        (match m.writeTransitionBase i addr v with
         | some b => insertSet m.modified b
         | none => m.modified)) ∧
    (∀ (m : Mmu) (evs : List WriteCall) (b : Nat),
      b ∈ ((m.clearPageModificationLog).runWrites evs).modified ↔
        b ∈ (m.clearPageModificationLog).transitionBases evs) ∧
    (∀ (m : Mmu) (evs : List WriteCall),
      (((m.clearPageModificationLog).runWrites evs).modified).Nodup) := by
  refine ⟨writePhysical_modified_spec, ?_, ?_⟩
  · intro m evs b
    rw [runWrites_modified]
    have : (m.clearPageModificationLog).modified = [] := rfl
    rw [this]
    simp
  · intro m evs
    exact runWrites_nodup evs _ (by exact List.nodup_nil)

theorem readPhysical_hookTrace (m : Mmu) (i addr n p : Nat) :
    ((m.readPhysical i addr n p).2).hookTrace = m.hookTrace := by
  unfold Mmu.readPhysical
  dsimp only
  split <;> first
    | rfl
    | (split <;> rfl)

theorem cowResolve_hookTrace (m : Mmu) (i ps j : Nat) (m1 : Mmu)
    (h : m.cowResolve i ps = Except.ok (j, m1)) : m1.hookTrace = m.hookTrace := by
  unfold Mmu.cowResolve at h
  split at h
  · split at h
    · cases h
    · cases h
      rfl
  · cases h
    rfl

theorem writePhysicalCommit_hookTrace (m : Mmu) (i ps addr : Nat) (v : List Nat)
    (p : Nat) : ((m.writePhysicalCommit i ps addr v p).2).hookTrace = m.hookTrace := by
  unfold Mmu.writePhysicalCommit
  split
  · rfl
  · rename_i idx1 m1 heq
    have h1 := cowResolve_hookTrace m i ps idx1 m1 heq
    dsimp only
    split
    · exact h1
    · split <;> exact h1

theorem writePhysical_hookTrace (m : Mmu) (i addr : Nat) (v : List Nat) (p : Nat) :
    ((m.writePhysical i addr v p).2).hookTrace = m.hookTrace := by
  unfold Mmu.writePhysical
  split
  · split
    · rfl
    · exact writePhysicalCommit_hookTrace _ _ _ _ _ _
  · exact writePhysicalCommit_hookTrace _ _ _ _ _ _

theorem initPhysical_hookTrace (m : Mmu) (addr : Nat) (w : Bool) :
    ((m.initPhysical addr w).2).hookTrace = m.hookTrace := by
  unfold Mmu.initPhysical
  dsimp only
  split
  · rfl
  · split
    · rfl
    · rfl

theorem readViaMapping_hookTrace (m : Mmu) (addr n p : Nat) :
    ((m.readViaMapping addr n p).2).hookTrace = m.hookTrace := by
  unfold Mmu.readViaMapping
  dsimp only
  split
  · rfl
  · exact readPhysical_hookTrace _ _ _ _ _
  · split
    · rfl
    · split
      · rename_i m1 heq
        have h1 := initPhysical_hookTrace
          { m with tlbMissCount := m.tlbMissCount + 1 } addr false
        rw [heq] at h1
        exact h1
      · rename_i idx m1 heq
        have h1 := initPhysical_hookTrace
          { m with tlbMissCount := m.tlbMissCount + 1 } addr false
        rw [heq] at h1
        exact (readPhysical_hookTrace m1 idx addr n p).trans h1
  · rfl

theorem readAccess_hookTrace (m : Mmu) (addr n p : Nat) :
    ((m.readAccess addr n p).2).hookTrace = m.hookTrace := by
  unfold Mmu.readAccess
  split
  · split
    · rfl
    · exact readViaMapping_hookTrace _ _ _ _
  · exact readViaMapping_hookTrace _ _ _ _

theorem readSlow1_hookTrace_zero (m : Mmu) (addr : Nat) :
    ((m.readSlow1 addr 0).2).hookTrace = m.hookTrace := by
  unfold Mmu.readSlow1
  rw [show m.tryReadHooks addr 1 0 = (none, m) from rfl]
  dsimp only
  split
  · rename_i er m2 heq
    have h2 := readAccess_hookTrace m addr 1 0
    rw [heq] at h2
    exact h2
  · rename_i r m2 heq
    have h2 := readAccess_hookTrace m addr 1 0
    rw [heq] at h2
    split
    · exact h2
    · exact h2

theorem readUnalignedGo_hookTrace_zero (cnt : Nat) :
    ∀ (m : Mmu) (addr i : Nat) (acc : List Nat),
      ((m.readUnalignedGo addr 0 i cnt acc).2).hookTrace = m.hookTrace := by
  induction cnt with
  | zero => intro m addr i acc; rfl
  | succ k ih =>
    intro m addr i acc
    unfold Mmu.readUnalignedGo
    split
    · rename_i b m1 heq
      have h1 := readSlow1_hookTrace_zero m (addr + i)
      rw [heq] at h1
      exact (ih m1 addr (i + 1) _).trans h1
    · rename_i er m1 heq
      have h1 := readSlow1_hookTrace_zero m (addr + i)
      rw [heq] at h1
      exact h1

theorem readTlbMiss_hookTrace_zero (m : Mmu) (addr n : Nat) :
    ((m.readTlbMiss addr n 0).2).hookTrace = m.hookTrace := by
  unfold Mmu.readTlbMiss
  split
  · exact readUnalignedGo_hookTrace_zero n m addr 0 []
  · rw [show m.tryReadHooks addr n 0 = (none, m) from rfl]
    dsimp only
    split
    · rename_i er m2 heq
      have h2 := readAccess_hookTrace m addr n 0
      rw [heq] at h2
      exact h2
    · rename_i r m2 heq
      have h2 := readAccess_hookTrace m addr n 0
      rw [heq] at h2
      split
      · exact (readUnalignedGo_hookTrace_zero n m2 addr 0 []).trans h2
      · split
        · exact h2
        · exact h2

theorem writeViaMapping_hookTrace (m : Mmu) (addr : Nat) (v : List Nat) (p : Nat) :
    ((m.writeViaMapping addr v p).2).hookTrace = m.hookTrace := by
  unfold Mmu.writeViaMapping
  dsimp only
  split
  · rfl
  · exact writePhysical_hookTrace _ _ _ _ _
  · split
    · rfl
    · split
      · rename_i m1 heq
        have h1 := initPhysical_hookTrace
          { m with tlbMissCount := m.tlbMissCount + 1 } addr true
        rw [heq] at h1
        exact h1
      · rename_i idx m1 heq
        have h1 := initPhysical_hookTrace
          { m with tlbMissCount := m.tlbMissCount + 1 } addr true
        rw [heq] at h1
        exact (writePhysical_hookTrace m1 idx addr v p).trans h1
  · rfl

theorem writeSlow1_hookTrace_zero (m : Mmu) (addr b : Nat) :
    ((m.writeSlow1 addr b 0).2).hookTrace = m.hookTrace := by
  unfold Mmu.writeSlow1
  split
  · rename_i er m1 heq
    have h1 := writeViaMapping_hookTrace m addr [b] 0
    rw [heq] at h1
    exact h1
  · rename_i r m1 heq
    have h1 := writeViaMapping_hookTrace m addr [b] 0
    rw [heq] at h1
    exact h1

theorem writeUnalignedGo_hookTrace_zero (v : List Nat) :
    ∀ (m : Mmu) (addr i : Nat),
      ((m.writeUnalignedGo addr 0 i v).2).hookTrace = m.hookTrace := by
  induction v with
  | nil => intro m addr i; rfl
  | cons b rest ih =>
    intro m addr i
    unfold Mmu.writeUnalignedGo
    split
    · rename_i m1 heq
      have h1 := writeSlow1_hookTrace_zero m (addr + i) b
      rw [heq] at h1
      exact (ih m1 addr (i + 1)).trans h1
    · rename_i er m1 heq
      have h1 := writeSlow1_hookTrace_zero m (addr + i) b
      rw [heq] at h1
      exact h1

theorem writeTlbMiss_hookTrace_zero (m : Mmu) (addr : Nat) (v : List Nat) :
    ((m.writeTlbMiss addr v 0).2).hookTrace = m.hookTrace := by
  unfold Mmu.writeTlbMiss
  split
  · exact writeUnalignedGo_hookTrace_zero v m addr 0
  · split
    · rename_i er m1 heq
      have h1 := writeViaMapping_hookTrace m addr v 0
      rw [heq] at h1
      exact h1
    · rename_i r m1 heq
      have h1 := writeViaMapping_hookTrace m addr v 0
      rw [heq] at h1
      split
      · exact (writeUnalignedGo_hookTrace_zero v m1 addr 0).trans h1
      · exact h1

/-- C10: a slow-path access with requested permission NONE dispatches no
    hooks at all, even when live hooks cover the address: the ghost trace
    of handler invocations is unchanged by read_tlb_miss (so neither read
    hooks before the access nor read-after hooks fire) and by
    write_tlb_miss (so no write hooks fire). -/
theorem c10_perm_none_skips_hooks (m : Mmu) (addr n : Nat) (v : List Nat) :
    ((m.readTlbMiss addr n Perm.NONE).2).hookTrace = m.hookTrace ∧
    ((m.writeTlbMiss addr v Perm.NONE).2).hookTrace = m.hookTrace :=
  ⟨readTlbMiss_hookTrace_zero m addr n, writeTlbMiss_hookTrace_zero m addr v⟩

end Icicle
